import Mathlib

/-!
Shallow embedding of the E57 point-cloud raw reader
(`src/pc_reader_raw.rs`) together with the collaborator interfaces it
consumes (paged reader, byte-stream buffer, bit-pack decoders, packet
header parsing), which are modelled from the specification where their
source is not part of this extract.

Machine integers are modelled as `Nat`/`Int`; IEEE-754 values are carried
as their raw little-endian bit patterns, which is faithful because the
decoders are bit-pattern passthroughs and no arithmetic is performed on
them in this layer.
-/

namespace E57

/-- Modelled from the spec (§4.A PagedPhysicalReader): the paged CRC-checked
reader is presented to upper layers as a logical byte stream with a cursor.
CRC checking and the physical/logical offset translation happen below this
interface and are not observable by the point-cloud reader, so the model is
the logical stream itself. Bytes are `Nat` values (< 256 in well-formed
data). -/
structure PagedReader where
  data : List Nat
  pos : Nat
deriving DecidableEq, Repr

/-- Modelled from the spec (§4.A): `read_exact` fills the buffer completely,
transparently crossing page boundaries, or fails. Failure leaves the logical
cursor unchanged in the model; no claim depends on the cursor position after
a failed read. -/
def PagedReader.read_exact (r : PagedReader) (n : Nat) : Option (List Nat × PagedReader) :=
  if r.pos + n ≤ r.data.length then
    some ((r.data.drop r.pos).take n, { r with pos := r.pos + n })
  else
    none

/-- Next multiple of 4 at or after `p`. -/
def align4 (p : Nat) : Nat := p + (4 - p % 4) % 4

/-- Modelled from the spec (§4.A): `align(4)` advances the logical cursor
forward to the next multiple of 4 logical bytes. -/
def PagedReader.align (r : PagedReader) : PagedReader :=
  { r with pos := align4 r.pos }

/-- Little-endian `u16` from a two-byte list (as produced by `read_exact 2`). -/
def u16le (l : List Nat) : Nat :=
  match l with
  | [a, b] => a % 256 + 256 * (b % 256)
  | _ => 0

/-- Error taxonomy of the crate (spec §7): `Io`, `InvalidFile`,
`Unimplemented`, `Internal`, each carrying a human-readable context line.
Modelled from the spec; the call sites and messages below are those of
`src/pc_reader_raw.rs`. -/
inductive E57Error where
  | ioError (msg : String)
  | invalidFile (msg : String)
  | unimplemented (msg : String)
  | internalError (msg : String)
deriving DecidableEq, Repr

instance {e a : Type} [DecidableEq e] [DecidableEq a] : DecidableEq (Except e a) := by
  intro x y
  cases x with
  | error v =>
    cases y with
    | error w =>
      exact decidable_of_iff (v = w)
        ⟨fun h => by rw [h], fun h => by injection h⟩
    | ok w => exact .isFalse fun h => Except.noConfusion h
  | ok v =>
    cases y with
    | error w => exact .isFalse fun h => Except.noConfusion h
    | ok w =>
      exact decidable_of_iff (v = w)
        ⟨fun h => by rw [h], fun h => by injection h⟩

/-- The eight bits of a byte, least-significant first (spec §6 bit order). -/
def byteBits (b : Nat) : List Bool :=
  (List.range 8).map fun k => b.testBit k

/-- Value of a bit list read least-significant bit first (spec §6 bit order). -/
def bitsToNat (l : List Bool) : Nat :=
  l.foldr (fun b acc => (if b then 1 else 0) + 2 * acc) 0

/-- Modelled from the spec (§4.B ByteStreamBuffer): a FIFO of bits fed by
byte appends and drained bit-wise by the decoders. The monotone read cursor
is modelled by dropping consumed bits from the front. -/
structure ByteStreamReadBuffer where
  bits : List Bool
deriving DecidableEq, Repr

/-- Modelled from the spec (§4.B): `append` adds raw bytes at the tail and
never invalidates previously buffered unread bits. -/
def ByteStreamReadBuffer.append (buf : ByteStreamReadBuffer) (bytes : List Nat) :
    ByteStreamReadBuffer :=
  ⟨buf.bits ++ (bytes.map byteBits).flatten⟩

/-- The `RecordValue` sum type (spec §3). `Single`/`Double` carry the raw
IEEE-754 bit pattern as a `Nat`. -/
inductive RecordValue where
  | single (bits : Nat)
  | double (bits : Nat)
  | scaledInteger (v : Int)
  | integer (v : Int)
deriving DecidableEq, Repr

/-- The `RecordDataType` tagged variant (spec §3). The optional bounds of
`Single`/`Double` and the scale/offset of `ScaledInteger` are ignored by the
core decode pipeline (the source matches them with `..`), so they are not
modelled. -/
inductive RecordDataType where
  | single
  | double
  | scaledInteger (min max : Int)
  | integer (min max : Int)
deriving DecidableEq, Repr

/-- One prototype field: a named column with a data type (spec §3). -/
structure Record where
  name : String
  dataType : RecordDataType
deriving DecidableEq, Repr

/-- The `PointCloud` descriptor as consumed by the raw reader: record count
and prototype (spec §3). `guid`, `name` and `file_offset` only steer the
constructor's initial seek and are not needed past construction. -/
structure PointCloud where
  records : Nat
  prototype : List Record
deriving DecidableEq, Repr

/-- Bit length of `n` (`floor(log2 n) + 1` for `n > 0`, else 0), written
with a structural fuel argument (`fuel ≥ n` suffices since the argument at
least halves each step) so that it evaluates by kernel reduction. -/
def bitLenAux : Nat → Nat → Nat
  | _, 0 => 0
  | 0, _ + 1 => 0
  | fuel + 1, n + 1 => bitLenAux fuel ((n + 1) / 2) + 1

/-- Bits needed for the range `[min, max]`: `ceil(log2(max − min + 1))`,
i.e. the bit length of `max − min` (spec §4.C). -/
def bitsFor (min max : Int) : Nat :=
  let range := (max - min).toNat
  bitLenAux range range

/-- Drain loop shared by all decoders: while at least `w` bits are buffered
(`w > 0`), consume `w` bits and push one value built by `mk` at the queue's
tail (spec §4.C: each decoder drains as many whole values as possible,
leaving at most `w − 1` bits behind). The structural fuel argument is the
initial buffered bit count, which bounds the iteration count since every
iteration consumes at least one bit. -/
def drainFixed (w : Nat) (mk : Nat → RecordValue) :
    Nat → List Bool → List RecordValue → List Bool × List RecordValue
  | 0, bits, q => (bits, q)
  | fuel + 1, bits, q =>
    if 0 < w ∧ w ≤ bits.length then
      drainFixed w mk fuel (bits.drop w) (q ++ [mk (bitsToNat (bits.take w))])
    else
      (bits, q)

namespace BitPack

/-- Modelled from the spec (§4.C unpack_single): consume 4 bytes, reinterpret
as little-endian `f32` (kept as the raw bit pattern), push
`RecordValue::Single`. -/
def unpack_singles (buf : ByteStreamReadBuffer) (q : List RecordValue) :
    Except E57Error (ByteStreamReadBuffer × List RecordValue) :=
  let (bits, q1) := drainFixed 32 RecordValue.single buf.bits.length buf.bits q
  .ok (⟨bits⟩, q1)

/-- Modelled from the spec (§4.C unpack_double): consume 8 bytes, reinterpret
as little-endian `f64` (kept as the raw bit pattern), push
`RecordValue::Double`. -/
def unpack_doubles (buf : ByteStreamReadBuffer) (q : List RecordValue) :
    Except E57Error (ByteStreamReadBuffer × List RecordValue) :=
  let (bits, q1) := drainFixed 64 RecordValue.double buf.bits.length buf.bits q
  .ok (⟨bits⟩, q1)

/-- Modelled from the spec (§4.C unpack_int): bit-packed unsigned integers
over `[min, max]`; emitted value is `min + raw`. Edge cases per the spec:
`max < min` and oversized ranges are invalid-file errors; a zero-bit
(degenerate) column is a no-op per packet call. -/
def unpack_ints (buf : ByteStreamReadBuffer) (min max : Int) (q : List RecordValue) :
    Except E57Error (ByteStreamReadBuffer × List RecordValue) :=
  if max < min then
    .error (.invalidFile "Inverted integer range")
  else if 2 ^ 63 < max - min + 1 then
    .error (.invalidFile "Integer range is too large")
  else
    let w := bitsFor min max
    if w = 0 then
      .ok (buf, q)
    else
      let (bits, q1) := drainFixed w (fun raw => RecordValue.integer (min + raw)) buf.bits.length buf.bits q
      .ok (⟨bits⟩, q1)

/-- Modelled from the spec (§4.C unpack_scaled_int): identical bit extraction
to `unpack_ints`; pushes `RecordValue::ScaledInteger (min + raw)`; scale and
offset are applied by the consumer layer, not here. -/
def unpack_scaled_ints (buf : ByteStreamReadBuffer) (min max : Int) (q : List RecordValue) :
    Except E57Error (ByteStreamReadBuffer × List RecordValue) :=
  if max < min then
    .error (.invalidFile "Inverted integer range")
  else if 2 ^ 63 < max - min + 1 then
    .error (.invalidFile "Integer range is too large")
  else
    let w := bitsFor min max
    if w = 0 then
      .ok (buf, q)
    else
      let (bits, q1) :=
        drainFixed w (fun raw => RecordValue.scaledInteger (min + raw)) buf.bits.length buf.bits q
      .ok (⟨bits⟩, q1)

end BitPack

/-- Data packet header fields used by the reader (spec §6: type byte, flags
byte, `packet_length: u16`, `bytestream_count: u16`). -/
structure DataPacketHeader where
  packetLength : Nat
  bytestreamCount : Nat
deriving DecidableEq, Repr

/-- Packet discriminator (spec §4.D): Index, Data or Ignored. -/
inductive PacketHeader where
  | index
  | ignored
  | data (h : DataPacketHeader)
deriving DecidableEq, Repr

/-- Modelled from the spec (§6 packet header): the first byte is the
packet-type discriminator (0 = Index, 1 = Data, 2 = Ignored); a data header
continues with a flags byte and the little-endian `u16` fields
`packet_length` and `bytestream_count`. Index/Ignored packets are rejected
by the reader immediately after the discriminator, so their type-specific
header layout is not modelled. -/
def PacketHeader.read (r : PagedReader) : Except E57Error (PacketHeader × PagedReader) :=
  match r.read_exact 1 with
  | none => .error (.ioError "Failed to read packet type")
  | some (tb, r1) =>
    if tb.headD 0 = 0 then .ok (.index, r1)
    else if tb.headD 0 = 1 then
      match r1.read_exact 5 with
      | none => .error (.ioError "Failed to read data packet header")
      | some (hb, r2) =>
        match hb with
        | [_, pl0, pl1, bc0, bc1] =>
          .ok (.data { packetLength := u16le [pl0, pl1], bytestreamCount := u16le [bc0, bc1] }, r2)
        | _ => .error (.ioError "Failed to read data packet header")
    else if tb.headD 0 = 2 then .ok (.ignored, r1)
    else .error (.invalidFile "Invalid packet type")

/-- State of `PointCloudReaderRaw` (`src/pc_reader_raw.rs`): descriptor,
reader, per-stream byte buffers, emitted-point counter `read`, per-stream
value queues and the reusable `buffer_sizes` vector. The transient scratch
byte buffer is not observable and is not modelled. `advanceCalls` is a ghost
instrumentation counter incremented on every `advance` invocation; it does
not influence behaviour. -/
structure PointCloudReaderRaw where
  pc : PointCloud
  reader : PagedReader
  byteStreams : List ByteStreamReadBuffer
  readCount : Nat
  queues : List (List RecordValue)
  bufferSizes : List Nat
  advanceCalls : Nat
deriving DecidableEq, Repr

/-- `usize::MAX` on a 64-bit target, the start value of the fold in
`available_in_queue`. -/
def USIZE_MAX : Nat := 2 ^ 64 - 1

/-- Constructor state (`PointCloudReaderRaw::new`) after the two seeks and
the section-header read: empty per-stream buffers and queues sized to the
prototype, `read = 0`. The `reader` argument stands for the paged reader
positioned at the section's `data_offset`. -/
def PointCloudReaderRaw.new (pc : PointCloud) (reader : PagedReader) : PointCloudReaderRaw :=
  { pc := pc
    reader := reader
    byteStreams := List.replicate pc.prototype.length ⟨[]⟩
    readCount := 0
    queues := List.replicate pc.prototype.length []
    bufferSizes := List.replicate pc.prototype.length 0
    advanceCalls := 0 }

/-- `PointCloudReaderRaw::available_in_queue`: 0 when there are no queues,
otherwise the fold computing the minimum queue length starting from
`usize::MAX`. -/
def PointCloudReaderRaw.available_in_queue (s : PointCloudReaderRaw) : Nat :=
  if s.queues.isEmpty then 0
  else s.queues.foldl (fun av q => if q.length < av then q.length else av) USIZE_MAX

/-- The loop of `PointCloudReaderRaw::pop_queue_point`: for `i` in
`0..prototype.len()`, pop the front of queue `i` (an `Internal` error when
empty) and push it at the point's tail. State mutations made before a
failing iteration persist, as with `&mut self` in the source. -/
def popLoop (queues : List (List RecordValue)) (i n : Nat) (acc : List RecordValue) :
    List (List RecordValue) × Except E57Error (List RecordValue) :=
  match n with
  | 0 => (queues, .ok acc)
  | Nat.succ m =>
    match queues.getD i [] with
    | [] => (queues, .error (.internalError "Failed to pop value for next point"))
    | v :: rest => popLoop (queues.set i rest) (i + 1) m (acc ++ [v])

/-- `PointCloudReaderRaw::pop_queue_point`. -/
def PointCloudReaderRaw.pop_queue_point (s : PointCloudReaderRaw) :
    PointCloudReaderRaw × Except E57Error (List RecordValue) :=
  let (qs, res) := popLoop s.queues 0 s.pc.prototype.length []
  ({ s with queues := qs }, res)

/-- The first loop of `advance` on a data packet: for `i` in
`0..bytestream_count`, read a little-endian `u16` into `buffer_sizes[i]`.
A failing read leaves the sizes written so far in place. -/
def readSizesLoop (r : PagedReader) (sizes : List Nat) (i n : Nat) :
    PagedReader × List Nat × Option E57Error :=
  match n with
  | 0 => (r, sizes, none)
  | Nat.succ m =>
    match r.read_exact 2 with
    | none => (r, sizes, some (.ioError "Failed to read data packet buffer sizes"))
    | some (bs, r1) => readSizesLoop r1 (sizes.set i (u16le bs)) (i + 1) m

/-- The second loop of `advance`: for each `(i, bs)` in
`buffer_sizes.iter().enumerate()`, read exactly `bs` bytes and append them
to byte stream `i`. A failing read leaves the appends made so far in
place. -/
def readPayloadsLoop (r : PagedReader) (streams : List ByteStreamReadBuffer)
    (sizes : List Nat) (i : Nat) :
    PagedReader × List ByteStreamReadBuffer × Option E57Error :=
  match sizes with
  | [] => (r, streams, none)
  | bs :: rest =>
    match r.read_exact bs with
    | none => (r, streams, some (.ioError "Failed to read data packet buffers"))
    | some (bytes, r1) =>
      readPayloadsLoop r1 (streams.set i ((streams.getD i ⟨[]⟩).append bytes)) rest (i + 1)

/-- Decoder dispatch of `advance`: the decoder is selected by the variant of
`prototype[i].data_type`. -/
def decodeOne (t : RecordDataType) (buf : ByteStreamReadBuffer) (q : List RecordValue) :
    Except E57Error (ByteStreamReadBuffer × List RecordValue) :=
  match t with
  | .single => BitPack.unpack_singles buf q
  | .double => BitPack.unpack_doubles buf q
  | .scaledInteger min max => BitPack.unpack_scaled_ints buf min max q
  | .integer min max => BitPack.unpack_ints buf min max q

/-- The third loop of `advance`: for each `(i, r)` in
`prototype.iter().enumerate()`, drain byte stream `i` into queue `i` with
the decoder for `r.data_type`. -/
def decodeLoop (streams : List ByteStreamReadBuffer) (queues : List (List RecordValue))
    (proto : List Record) (i : Nat) :
    List ByteStreamReadBuffer × List (List RecordValue) × Option E57Error :=
  match proto with
  | [] => (streams, queues, none)
  | fld :: rest =>
    match decodeOne fld.dataType (streams.getD i ⟨[]⟩) (queues.getD i []) with
    | .error e => (streams, queues, some e)
    | .ok (buf1, q1) => decodeLoop (streams.set i buf1) (queues.set i q1) rest (i + 1)

/-- `PointCloudReaderRaw::advance`: read one packet header; reject Index and
Ignored packets as unimplemented; on a data packet check
`bytestream_count == byte_streams.len()`, read the stream sizes, read and
append the payloads, run the decoders, and finally align the reader to the
next 4-byte boundary. Errors propagate immediately (`?` in the source),
keeping the state mutations made up to that point. -/
def PointCloudReaderRaw.advance (s : PointCloudReaderRaw) :
    PointCloudReaderRaw × Option E57Error :=
  let s0 : PointCloudReaderRaw := { s with advanceCalls := s.advanceCalls + 1 }
  match PacketHeader.read s0.reader with
  | .error e => (s0, some e)
  | .ok (hdr, r1) =>
    let s1 : PointCloudReaderRaw := { s0 with reader := r1 }
    match hdr with
    | .index => (s1, some (.unimplemented "Index packets are not yet supported"))
    | .ignored => (s1, some (.unimplemented "Ignored packets are not yet supported"))
    | .data dh =>
      if dh.bytestreamCount ≠ s1.byteStreams.length then
        (s1, some (.invalidFile "Bytestream count does not match prototype size"))
      else
        let rse := readSizesLoop s1.reader s1.bufferSizes 0 dh.bytestreamCount
        let s2 : PointCloudReaderRaw := { s1 with reader := rse.1, bufferSizes := rse.2.1 }
        match rse.2.2 with
        | some e => (s2, some e)
        | none =>
          let rpe := readPayloadsLoop s2.reader s2.byteStreams s2.bufferSizes 0
          let s3 : PointCloudReaderRaw := { s2 with reader := rpe.1, byteStreams := rpe.2.1 }
          match rpe.2.2 with
          | some e => (s3, some e)
          | none =>
            let dcd := decodeLoop s3.byteStreams s3.queues s3.pc.prototype 0
            let s4 : PointCloudReaderRaw := { s3 with byteStreams := dcd.1, queues := dcd.2.1 }
            match dcd.2.2 with
            | some e => (s4, some e)
            | none => ({ s4 with reader := s4.reader.align }, none)

/-- `Iterator::next` for `PointCloudReaderRaw`: end-of-stream once
`read >= records`; refill via `advance` when no value is available in some
queue (an error becomes the current item); end-of-stream when still nothing
is available; otherwise pop one point and increment `read`. -/
def PointCloudReaderRaw.next (s : PointCloudReaderRaw) :
    PointCloudReaderRaw × Option (Except E57Error (List RecordValue)) :=
  if s.pc.records ≤ s.readCount then (s, none)
  else
    match (if s.available_in_queue < 1 then s.advance else (s, none)) with
    | (s1, some e) => (s1, some (.error e))
    | (s1, none) =>
      if s1.available_in_queue < 1 then (s1, none)
      else
        match s1.pop_queue_point with
        | (s2, .ok p) => ({ s2 with readCount := s2.readCount + 1 }, some (.ok p))
        | (s2, .error e) => (s2, some (.error e))

/-- `Iterator::size_hint` for `PointCloudReaderRaw`. -/
def PointCloudReaderRaw.size_hint (s : PointCloudReaderRaw) : Nat × Option Nat :=
  let overall := s.pc.records
  let remaining := overall - s.readCount
  (remaining, some remaining)

/-- Iterator state after `n` calls to `next`. -/
def stateAfter (s : PointCloudReaderRaw) : Nat → PointCloudReaderRaw
  | 0 => s
  | Nat.succ n => ((stateAfter s n).next).1

/-- Item returned by the `(n+1)`-th call to `next` (0-based). -/
def itemAt (s : PointCloudReaderRaw) (n : Nat) : Option (Except E57Error (List RecordValue)) :=
  ((stateAfter s n).next).2

/-- Junk default used by `getD`/`headD` rewritings; never the value actually
read under the stated hypotheses. -/
def junkValue : RecordValue := .integer 0

/-- Structural well-formedness maintained by the constructor: the per-stream
vectors all have the prototype's length. -/
def WF (s : PointCloudReaderRaw) : Prop :=
  s.byteStreams.length = s.pc.prototype.length ∧
    s.queues.length = s.pc.prototype.length ∧
    s.bufferSizes.length = s.pc.prototype.length

instance (s : PointCloudReaderRaw) : Decidable (WF s) := by
  unfold WF
  infer_instance

/-- Junk default `Record` used by `getD` rewritings. -/
def junkRecord : Record := { name := "", dataType := .single }

/-- Spec-side restatement of the decode phase (spec §4.D): for each stream
`i` in index order, the decoder dictated by `prototype[i].data_type` drains
stream `i` into queue `i`; the first decoder error aborts. Stated by
structural recursion over the three vectors; compared against the indexed
loop `decodeLoop` of the source. -/
def decodeStreams : List Record → List ByteStreamReadBuffer → List (List RecordValue) →
    Except E57Error (List ByteStreamReadBuffer × List (List RecordValue))
  | [], bufs, qs => .ok (bufs, qs)
  | _ :: _, [], qs => .ok ([], qs)
  | _ :: _, b :: bs, [] => .ok (b :: bs, [])
  | f :: fs, b :: bs, q :: qs =>
    match decodeOne f.dataType b q with
    | .error e => .error e
    | .ok bq =>
      match decodeStreams fs bs qs with
      | .error e => .error e
      | .ok rest => .ok (bq.1 :: rest.1, bq.2 :: rest.2)

/-- Spec-side restatement of the payload phase (spec §4.D): the payloads lie
consecutively in the stream starting at `pos`, stream `i`'s run having the
`i`-th declared size, and each run is appended to the corresponding buffer.
Compared against the indexed loop `readPayloadsLoop` of the source. -/
def appendPayloads (data : List Nat) : Nat → List ByteStreamReadBuffer → List Nat →
    List ByteStreamReadBuffer
  | _, [], _ => []
  | _, bufs, [] => bufs
  | pos, b :: bs, n :: ns =>
    b.append ((data.drop pos).take n) :: appendPayloads data (pos + n) bs ns

/-- Two-byte little-endian encoding of a `u16` value. -/
def enc2 (n : Nat) : List Nat := [n % 256, n / 256]

/-- A well-formed single data packet for `count` byte streams with the given
payloads: type byte 1, flags byte, `packet_length`, `bytestream_count`, the
little-endian `u16` stream sizes, then the payloads in stream order
(spec §6). -/
def packetBytes (count : Nat) (payloads : List (List Nat)) : List Nat :=
  ([1, 0, 0, 0] ++ enc2 count) ++
    ((payloads.map (fun p => enc2 p.length)).flatten ++ payloads.flatten)

/-- Descriptor for the C4 witness: one 2-bit integer field and one single
field, two records. -/
def pcC4 : PointCloud :=
  { records := 2
    prototype := [{ name := "a", dataType := .integer 0 3 },
                  { name := "b", dataType := .single }] }

/-- C4 witness state: a fresh reader over one complete data packet (sizes
1 and 8, then the two payloads). -/
def stateC4 : PointCloudReaderRaw :=
  PointCloudReaderRaw.new pcC4
    { data := [1, 0, 0, 0, 2, 0, 1, 0, 8, 0, 14, 1, 0, 0, 0, 2, 0, 0, 0], pos := 0 }

/-- A packet padded with zero bytes to the next 4-byte boundary, since each
packet of a section begins at a 4-byte-aligned logical position and the
reader aligns forward after every packet (spec §4.D). -/
def paddedPacket (count : Nat) (payloads : List (List Nat)) : List Nat :=
  packetBytes count payloads ++
    List.replicate ((4 - (packetBytes count payloads).length % 4) % 4) 0

/-- A well-formed section for `count` byte streams: the concatenation of any
number of complete, padded data packets, each carrying one payload run per
stream. -/
def sectionBytes (count : Nat) (packets : List (List (List Nat))) : List Nat :=
  (packets.map (paddedPacket count)).flatten

/-- The iterator of the claim: a fresh reader over a section consisting of
the given data packets. -/
def sectionReader (pc : PointCloud) (packets : List (List (List Nat))) :
    PointCloudReaderRaw :=
  PointCloudReaderRaw.new pc { data := sectionBytes pc.prototype.length packets, pos := 0 }

/-- Builds a reader state from its components; the shape every state of the
multi-packet run keeps. -/
def mkState (pc : PointCloud) (D : List Nat) (p : Nat) (bufs : List ByteStreamReadBuffer)
    (rc : Nat) (qs : List (List RecordValue)) (bsz : List Nat) (ac : Nat) :
    PointCloudReaderRaw :=
  { pc := pc
    reader := { data := D, pos := p }
    byteStreams := bufs
    readCount := rc
    queues := qs
    bufferSizes := bsz
    advanceCalls := ac }

/-- The emission contract of the iterator from state `s` with `rem` points
outstanding: `rem` successful items, then the emitted counter equals the
record count, then end-of-stream forever with the state frozen. -/
def RunSpec (s : PointCloudReaderRaw) (rem : Nat) : Prop :=
  (∀ j, j < rem → ∃ pt, itemAt s j = some (.ok pt)) ∧
    (stateAfter s rem).readCount = s.pc.records ∧
    (∀ k, rem ≤ k → itemAt s k = none) ∧
    (∀ k, rem ≤ k → stateAfter s k = stateAfter s rem)

/-- Descriptor for the C1 witness: one 2-bit integer field and one single
field, three records. -/
def pcC1 : PointCloud :=
  { records := 3
    prototype := [{ name := "a", dataType := .integer 0 3 },
                  { name := "b", dataType := .single }] }

/-- C1 witness section: two packets. The first feeds 1 byte to the 2-bit
integer column and one `f32` word to the single column; the second feeds
another byte and two more `f32` words, so the second packet is ingested by a
refill in the middle of the iteration. -/
def packetsC1 : List (List (List Nat)) :=
  [[[14], [1, 0, 0, 0]],
   [[9], [2, 0, 0, 0, 3, 0, 0, 0]]]

/-- C1 witness: per-packet per-stream decoded values. -/
def valssC1 : List (List (List RecordValue)) :=
  [[[.integer 2, .integer 3, .integer 0, .integer 0], [.single 1]],
   [[.integer 1, .integer 2, .integer 0, .integer 0], [.single 2, .single 3]]]

/-- C1 witness: the per-stream buffer states before each packet and after the
last one (every packet drains completely here). -/
def bufssC1 : List (List ByteStreamReadBuffer) :=
  [[⟨[]⟩, ⟨[]⟩], [⟨[]⟩, ⟨[]⟩], [⟨[]⟩, ⟨[]⟩]]

/-- A reader state whose stream is two Index-packet type bytes: the first
`next()` fails on the first byte, a second `next()` re-enters `advance` and
fails again on the second byte. Exhibits that an error item does not poison
the iterator. -/
def stateC2 : PointCloudReaderRaw :=
  { pc := { records := 2, prototype := [{ name := "x", dataType := .single }] }
    reader := { data := [0, 0], pos := 0 }
    byteStreams := [⟨[]⟩]
    readCount := 0
    queues := [[]]
    bufferSizes := [0]
    advanceCalls := 0 }

/-- A well-formed state with one single-field queue holding two values;
exercises the pop path concretely. -/
def stateC9 : PointCloudReaderRaw :=
  { pc := { records := 3, prototype := [{ name := "a", dataType := .integer 0 7 }] }
    reader := { data := [], pos := 0 }
    byteStreams := [⟨[]⟩]
    readCount := 0
    queues := [[.integer 5, .integer 6]]
    bufferSizes := [0]
    advanceCalls := 0 }

/-- A state with an empty queue whose stream holds one data packet carrying a
zero-length byte stream: ingestion succeeds but yields no value. -/
def stateC3 : PointCloudReaderRaw :=
  { pc := { records := 1, prototype := [{ name := "a", dataType := .single }] }
    reader := { data := [1, 0, 0, 0, 1, 0, 0, 0], pos := 0 }
    byteStreams := [⟨[]⟩]
    readCount := 0
    queues := [[]]
    bufferSizes := [0]
    advanceCalls := 0 }

/-- A state whose stream holds a data packet header declaring one byte stream
against an empty prototype. -/
def stateC5 : PointCloudReaderRaw :=
  { pc := { records := 1, prototype := [] }
    reader := { data := [1, 0, 3, 0, 1, 0], pos := 0 }
    byteStreams := []
    readCount := 0
    queues := []
    bufferSizes := []
    advanceCalls := 0 }

/-- A state whose stream holds an Index packet type byte. -/
def stateC6a : PointCloudReaderRaw :=
  { pc := { records := 0, prototype := [] }
    reader := { data := [0], pos := 0 }
    byteStreams := []
    readCount := 0
    queues := []
    bufferSizes := []
    advanceCalls := 0 }

/-- A state whose stream holds an Ignored packet type byte. -/
def stateC6b : PointCloudReaderRaw :=
  { pc := { records := 0, prototype := [] }
    reader := { data := [2], pos := 0 }
    byteStreams := []
    readCount := 0
    queues := []
    bufferSizes := []
    advanceCalls := 0 }

/-- A well-formed state with a value available, used to observe `size_hint`
across one successful emission. -/
def stateC8 : PointCloudReaderRaw :=
  { pc := { records := 3, prototype := [{ name := "a", dataType := .integer 0 7 }] }
    reader := { data := [], pos := 0 }
    byteStreams := [⟨[]⟩]
    readCount := 0
    queues := [[.integer 5, .integer 6]]
    bufferSizes := [0]
    advanceCalls := 0 }

/-- A well-formed two-field state with prefilled queues, used to follow the
index-wise assembly of emitted points. -/
def stateC7 : PointCloudReaderRaw :=
  { pc := { records := 3,
            prototype := [{ name := "a", dataType := .integer 0 7 },
                          { name := "b", dataType := .double }] }
    reader := { data := [], pos := 0 }
    byteStreams := [⟨[]⟩, ⟨[]⟩]
    readCount := 0
    queues := [[.integer 5, .integer 6], [.double 10, .double 11]]
    bufferSizes := [0, 0]
    advanceCalls := 0 }

/-- An empty-prototype state whose stream holds a data packet with zero byte
streams, so that ingestion succeeds while producing nothing. -/
def stateC10 : PointCloudReaderRaw :=
  { pc := { records := 1, prototype := [] }
    reader := { data := [1, 0, 0, 0, 0, 0], pos := 0 }
    byteStreams := []
    readCount := 0
    queues := []
    bufferSizes := []
    advanceCalls := 0 }

/-! ### Availability lemmas -/

/-- The fold of `available_in_queue` never exceeds its start value. -/
lemma foldl_min_le_init (l : List (List RecordValue)) :
    ∀ init, l.foldl (fun av q => if q.length < av then q.length else av) init ≤ init := by
  induction l with
  | nil => intro init; simp
  | cons y ys ih =>
    intro init
    simp only [List.foldl_cons]
    exact le_trans (ih _) (by split <;> omega)

/-- The fold of `available_in_queue` is bounded by every queue's length. -/
lemma foldl_min_le_mem (l : List (List RecordValue)) (q : List RecordValue) (hq : q ∈ l) :
    ∀ init, l.foldl (fun av q => if q.length < av then q.length else av) init ≤ q.length := by
  induction l with
  | nil => cases hq
  | cons x xs ih =>
    intro init
    rcases List.mem_cons.mp hq with h | h
    · subst h
      simp only [List.foldl_cons]
      exact le_trans (foldl_min_le_init _ _) (by split <;> omega)
    · exact ih h _

/-- The fold of `available_in_queue` is at least `c` when every queue holds at
least `c` values and `c` does not exceed the start value. -/
lemma le_foldl_min (l : List (List RecordValue)) (c : Nat) (h : ∀ q ∈ l, c ≤ q.length) :
    ∀ init, c ≤ init → c ≤ l.foldl (fun av q => if q.length < av then q.length else av) init := by
  induction l with
  | nil => intro init hi; simpa using hi
  | cons x xs ih =>
    intro init hi
    simp only [List.foldl_cons]
    refine ih (fun q hq => h q (List.mem_cons_of_mem _ hq)) _ ?_
    have := h x (List.mem_cons_self _ _)
    split <;> omega

/-- `available_in_queue` is bounded by the length of every queue. -/
lemma available_le_of_mem (s : PointCloudReaderRaw) (q : List RecordValue) (hq : q ∈ s.queues) :
    s.available_in_queue ≤ q.length := by
  unfold PointCloudReaderRaw.available_in_queue
  have hne : ¬s.queues.isEmpty := by
    cases hs : s.queues with
    | nil => rw [hs] at hq; cases hq
    | cons a l => simp [hs]
  simp only [hne, if_false]
  exact foldl_min_le_mem _ _ hq _

/-- `available_in_queue` is at least `c` when there is at least one queue and
every queue holds at least `c` values (for `c` within `usize` range). -/
lemma le_available (s : PointCloudReaderRaw) (c : Nat) (hne : s.queues ≠ [])
    (h : ∀ q ∈ s.queues, c ≤ q.length) (hc : c ≤ USIZE_MAX) :
    c ≤ s.available_in_queue := by
  unfold PointCloudReaderRaw.available_in_queue
  have : ¬s.queues.isEmpty := by
    cases hs : s.queues with
    | nil => exact absurd hs hne
    | cons a l => simp
  simp only [this, if_false]
  exact le_foldl_min _ _ h _ hc

/-- With no queues at all, `available_in_queue` is 0. -/
lemma available_of_queues_nil (s : PointCloudReaderRaw) (h : s.queues = []) :
    s.available_in_queue = 0 := by
  unfold PointCloudReaderRaw.available_in_queue
  simp [h]

/-! ### pop_queue_point lemmas -/

/-- Shifting the pop loop past the head of the queue vector. -/
lemma popLoop_shift (n : Nat) :
    ∀ (q : List RecordValue) (qs : List (List RecordValue)) (i : Nat) (acc : List RecordValue),
    popLoop (q :: qs) (i + 1) n acc =
      ((q :: (popLoop qs i n acc).1), (popLoop qs i n acc).2) := by
  induction n with
  | zero => intro q qs i acc; rfl
  | succ m ih =>
    intro q qs i acc
    simp only [popLoop, List.getD_cons_succ]
    cases qs.getD i [] with
    | nil => rfl
    | cons v rest =>
      simp only [List.set_cons_succ]
      exact ih q (qs.set i rest) (i + 1) (acc ++ [v])

/-- Successful closed form of the pop loop: when every queue is nonempty, it
pops exactly the heads, in index order, and leaves the tails. -/
lemma popLoop_ok (queues : List (List RecordValue)) (acc : List RecordValue)
    (h : ∀ q ∈ queues, q ≠ []) :
    popLoop queues 0 queues.length acc =
      (queues.map List.tail, .ok (acc ++ queues.map (fun q => q.headD junkValue))) := by
  induction queues generalizing acc with
  | nil => simp [popLoop]
  | cons q qs ih =>
    cases hq : q with
    | nil => exact absurd hq (h q (List.mem_cons_self _ _))
    | cons v rest =>
      simp only [List.length_cons, popLoop, List.getD_cons_zero, hq, List.set_cons_zero]
      rw [popLoop_shift, ih (acc ++ [v]) (fun q hq => h q (List.mem_cons_of_mem _ hq))]
      simp [List.append_assoc]

/-- `pop_queue_point` succeeds on well-formed state with nonempty queues,
returning exactly the queue heads in field order and leaving the tails. -/
lemma pop_queue_point_ok (s : PointCloudReaderRaw) (hWF : WF s)
    (h : ∀ q ∈ s.queues, q ≠ []) :
    s.pop_queue_point =
      ({ s with queues := s.queues.map List.tail },
       .ok (s.queues.map (fun q => q.headD junkValue))) := by
  unfold PointCloudReaderRaw.pop_queue_point
  rw [show s.pc.prototype.length = s.queues.length from hWF.2.1.symm]
  rw [popLoop_ok s.queues [] h]
  simp

/-- `pop_queue_point` changes only the queues. -/
lemma pop_queue_point_fields (s : PointCloudReaderRaw) :
    (s.pop_queue_point).1.pc = s.pc ∧
      (s.pop_queue_point).1.reader = s.reader ∧
      (s.pop_queue_point).1.byteStreams = s.byteStreams ∧
      (s.pop_queue_point).1.readCount = s.readCount ∧
      (s.pop_queue_point).1.bufferSizes = s.bufferSizes ∧
      (s.pop_queue_point).1.advanceCalls = s.advanceCalls := by
  unfold PointCloudReaderRaw.pop_queue_point
  simp

/-! ### advance lemmas -/

/-- `advance` never touches the descriptor or the emitted counter, and bumps
the ghost ingestion counter by exactly one. -/
lemma advance_fields (s : PointCloudReaderRaw) :
    (s.advance).1.pc = s.pc ∧ (s.advance).1.readCount = s.readCount ∧
      (s.advance).1.advanceCalls = s.advanceCalls + 1 := by
  unfold PointCloudReaderRaw.advance
  dsimp only
  repeat' split
  all_goals simp

/-- The decode loop leaves the queues alone when the prototype is empty, so
`advance` cannot create values for an empty prototype. -/
lemma advance_queues_of_proto_nil (s : PointCloudReaderRaw) (hp : s.pc.prototype = []) :
    (s.advance).1.queues = s.queues := by
  unfold PointCloudReaderRaw.advance
  dsimp only
  simp only [hp, decodeLoop]
  repeat' split
  all_goals simp

/-! ### next lemmas -/

/-- Once `read >= records`, `next` returns end-of-stream and leaves the state
untouched. -/
lemma next_done (s : PointCloudReaderRaw) (h : s.pc.records ≤ s.readCount) :
    s.next = (s, none) := by
  unfold PointCloudReaderRaw.next
  rw [if_pos h]

/-- When every queue already holds a value and points remain to be emitted,
`next` does not refill: it pops the queue heads into a point, increments
`read`, and leaves the tails. -/
lemma next_pop (s : PointCloudReaderRaw) (hWF : WF s) (hne : s.pc.prototype ≠ [])
    (hq : ∀ q ∈ s.queues, q ≠ []) (hrec : s.readCount < s.pc.records) :
    s.next = ({ s with readCount := s.readCount + 1, queues := s.queues.map List.tail },
              some (.ok (s.queues.map (fun q => q.headD junkValue)))) := by
  have hqne : s.queues ≠ [] := by
    intro h
    apply hne
    have hlen := hWF.2.1
    rw [h] at hlen
    exact List.length_eq_zero.mp hlen.symm
  have hav : 1 ≤ s.available_in_queue := by
    refine le_available s 1 hqne (fun q hmem => ?_) (by norm_num [USIZE_MAX])
    exact Nat.one_le_iff_ne_zero.mpr (fun h0 => hq q hmem (List.length_eq_zero.mp h0))
  have hcond : ¬ s.available_in_queue < 1 := by omega
  unfold PointCloudReaderRaw.next
  rw [if_neg (by omega)]
  simp only [hcond, if_false]
  rw [pop_queue_point_ok s hWF hq]

/-- `stateAfter` can be unrolled from the front. -/
lemma stateAfter_succ_shift (s : PointCloudReaderRaw) (n : Nat) :
    stateAfter s (n + 1) = stateAfter (s.next).1 n := by
  induction n with
  | zero => rfl
  | succ m ih =>
    show (stateAfter s (m + 1)).next.1 = stateAfter (s.next).1 (m + 1)
    rw [ih]
    rfl

/-- `itemAt` can be unrolled from the front. -/
lemma itemAt_succ_shift (s : PointCloudReaderRaw) (n : Nat) :
    itemAt s (n + 1) = itemAt (s.next).1 n := by
  unfold itemAt
  rw [stateAfter_succ_shift]

/-- A finished iterator stays in place forever. -/
lemma stateAfter_of_done (s : PointCloudReaderRaw) (h : s.pc.records ≤ s.readCount) :
    ∀ k, stateAfter s k = s := by
  intro k
  induction k with
  | zero => rfl
  | succ m ih =>
    show (stateAfter s m).next.1 = s
    rw [ih, next_done s h]

/-- Running `j` pops (no refills) from a state whose queues all hold at least
`m ≥ j` values: the emitted counter advances by `j` and each queue loses its
first `j` values; nothing else changes. -/
lemma stateAfter_pops (s : PointCloudReaderRaw) (hWF : WF s) (hne : s.pc.prototype ≠ [])
    (m : Nat) (hq : ∀ q ∈ s.queues, m ≤ q.length) :
    ∀ j, j ≤ m → j ≤ s.pc.records - s.readCount →
      stateAfter s j =
        { s with readCount := s.readCount + j, queues := s.queues.map (List.drop j) } := by
  intro j
  induction j with
  | zero =>
    intro _ _
    show s = _
    have h0 : s.queues.map (List.drop 0) = s.queues := by
      rw [show (List.drop 0 : List RecordValue → List RecordValue) = id from funext List.drop_zero]
      exact List.map_id s.queues
    rw [h0]
    rfl
  | succ i ih =>
    intro hjm hjr
    have hi := ih (by omega) (by omega)
    show (stateAfter s i).next.1 = _
    rw [hi]
    have hWFi : WF { s with readCount := s.readCount + i, queues := s.queues.map (List.drop i) } := by
      refine ⟨hWF.1, ?_, hWF.2.2⟩
      simpa using hWF.2.1
    have hqi : ∀ q ∈ s.queues.map (List.drop i), q ≠ [] := by
      intro q hmem
      rcases List.mem_map.mp hmem with ⟨q0, hq0, rfl⟩
      have := hq q0 hq0
      have hlen : 0 < (q0.drop i).length := by
        simp only [List.length_drop]
        omega
      exact List.ne_nil_of_length_pos hlen
    rw [next_pop _ hWFi hne hqi (by show s.readCount + i < s.pc.records; omega)]
    dsimp only
    have hqmap : (s.queues.map (List.drop i)).map List.tail = s.queues.map (List.drop (i + 1)) := by
      rw [List.map_map]
      apply List.map_congr_left
      intro q _
      show (q.drop i).tail = q.drop (i + 1)
      exact List.tail_drop q i
    rw [hqmap]
    rfl

/-- The item popped at step `j` under the hypotheses of `stateAfter_pops`:
the heads of the queues after `j` drops. -/
lemma itemAt_pops (s : PointCloudReaderRaw) (hWF : WF s) (hne : s.pc.prototype ≠ [])
    (m : Nat) (hq : ∀ q ∈ s.queues, m ≤ q.length) (j : Nat) (hjm : j < m)
    (hjr : j < s.pc.records - s.readCount) :
    itemAt s j =
      some (.ok ((s.queues.map (List.drop j)).map (fun q => q.headD junkValue))) := by
  unfold itemAt
  rw [stateAfter_pops s hWF hne m hq j (by omega) (by omega)]
  have hWFj : WF { s with readCount := s.readCount + j, queues := s.queues.map (List.drop j) } := by
    refine ⟨hWF.1, ?_, hWF.2.2⟩
    simpa using hWF.2.1
  have hqj : ∀ q ∈ s.queues.map (List.drop j), q ≠ [] := by
    intro q hmem
    rcases List.mem_map.mp hmem with ⟨q0, hq0, rfl⟩
    have := hq q0 hq0
    have hlen : 0 < (q0.drop j).length := by
      simp only [List.length_drop]
      omega
    exact List.ne_nil_of_length_pos hlen
  rw [next_pop _ hWFj hne hqj (by show s.readCount + j < s.pc.records; omega)]

/-! ### advance loop closed forms -/

/-- Shifting the size-reading loop past the head of the sizes vector. -/
lemma readSizesLoop_shift (n : Nat) :
    ∀ (r : PagedReader) (x : Nat) (xs : List Nat) (i : Nat),
    readSizesLoop r (x :: xs) (i + 1) n =
      ((readSizesLoop r xs i n).1, x :: (readSizesLoop r xs i n).2.1,
        (readSizesLoop r xs i n).2.2) := by
  induction n with
  | zero => intro r x xs i; rfl
  | succ m ih =>
    intro r x xs i
    simp only [readSizesLoop]
    cases r.read_exact 2 with
    | none => rfl
    | some br =>
      rcases br with ⟨bs, r1⟩
      dsimp only
      rw [List.set_cons_succ]
      exact ih r1 x (xs.set i (u16le bs)) (i + 1)

/-- Folding one leading `u16` into the size table. -/
lemma sizesTable_cons (r : PagedReader) (len : Nat) :
    u16le ((r.data.drop r.pos).take 2) ::
      (List.range len).map (fun k => u16le ((r.data.drop (r.pos + 2 + 2 * k)).take 2))
      = (List.range (len + 1)).map
          (fun k => u16le ((r.data.drop (r.pos + 2 * k)).take 2)) := by
  rw [List.range_succ_eq_map, List.map_cons, List.map_map]
  have h1 : u16le ((r.data.drop r.pos).take 2)
      = u16le ((r.data.drop (r.pos + 2 * 0)).take 2) := by norm_num
  have h2 : ∀ a ∈ List.range len,
      ((fun k => u16le ((r.data.drop (r.pos + 2 * k)).take 2)) ∘ Nat.succ) a
      = (fun k => u16le ((r.data.drop (r.pos + 2 + 2 * k)).take 2)) a := by
    intro a _
    show u16le ((r.data.drop (r.pos + 2 * (a + 1))).take 2) = _
    rw [show r.pos + 2 * (a + 1) = r.pos + 2 + 2 * a by ring]
  rw [h1, List.map_congr_left h2]

/-- Success closed form of the size-reading loop: with enough bytes it
advances the reader by `2 * n` and writes the `k`-th little-endian `u16` of
the stream into slot `k`. -/
lemma readSizesLoop_complete :
    ∀ (sizes : List Nat) (r : PagedReader),
    r.pos + 2 * sizes.length ≤ r.data.length →
    readSizesLoop r sizes 0 sizes.length =
      ({ r with pos := r.pos + 2 * sizes.length },
       (List.range sizes.length).map (fun k => u16le ((r.data.drop (r.pos + 2 * k)).take 2)),
       none) := by
  intro sizes
  induction sizes with
  | nil =>
    intro r _
    rfl
  | cons x xs ih =>
    intro r hb
    simp only [List.length_cons] at hb
    have hre : r.read_exact 2 =
        some ((r.data.drop r.pos).take 2, { r with pos := r.pos + 2 }) := by
      unfold PagedReader.read_exact
      rw [if_pos (by omega)]
    simp only [List.length_cons, readSizesLoop, hre]
    rw [List.set_cons_zero, readSizesLoop_shift]
    rw [ih { r with pos := r.pos + 2 } (by dsimp only; omega)]
    dsimp only
    rw [show r.pos + 2 + 2 * xs.length = r.pos + 2 * (xs.length + 1) by ring]
    rw [sizesTable_cons r xs.length]

/-- Error-free elimination for the size-reading loop: a run that reports no
error has read exactly `2 * n` bytes and produced the `u16` table. -/
lemma readSizesLoop_none :
    ∀ (sizes : List Nat) (r r' : PagedReader) (sz' : List Nat),
    readSizesLoop r sizes 0 sizes.length = (r', sz', none) →
    r' = { r with pos := r.pos + 2 * sizes.length } ∧
      sz' = (List.range sizes.length).map
        (fun k => u16le ((r.data.drop (r.pos + 2 * k)).take 2)) := by
  intro sizes
  induction sizes with
  | nil =>
    intro r r' sz' h
    have h1 : r = r' := congrArg (fun t => t.1) h
    have h2 : ([] : List Nat) = sz' := congrArg (fun t => t.2.1) h
    exact ⟨h1.symm, h2.symm⟩
  | cons x xs ih =>
    intro r r' sz' h
    simp only [List.length_cons, readSizesLoop] at h
    cases hre : r.read_exact 2 with
    | none =>
      rw [hre] at h
      have hcontra : (some (E57Error.ioError "Failed to read data packet buffer sizes")
          : Option E57Error) = none := congrArg (fun t => t.2.2) h
      cases hcontra
    | some br =>
      rcases br with ⟨bs, r1⟩
      have hb : r.pos + 2 ≤ r.data.length ∧ bs = (r.data.drop r.pos).take 2 ∧
          r1 = { r with pos := r.pos + 2 } := by
        unfold PagedReader.read_exact at hre
        by_cases hc : r.pos + 2 ≤ r.data.length
        · rw [if_pos hc] at hre
          rw [Option.some.injEq, Prod.mk.injEq] at hre
          exact ⟨hc, hre.1.symm, hre.2.symm⟩
        · rw [if_neg hc] at hre
          cases hre
      obtain ⟨hble, rfl, rfl⟩ := hb
      rw [hre] at h
      dsimp only at h
      rw [List.set_cons_zero, readSizesLoop_shift] at h
      rcases hrec : readSizesLoop { r with pos := r.pos + 2 } xs 0 xs.length with ⟨r2, sz2, e2⟩
      rw [hrec] at h
      dsimp only at h
      have hr2 : r2 = r' := congrArg (fun t => t.1) h
      have hsz : u16le ((r.data.drop r.pos).take 2) :: sz2 = sz' :=
        congrArg (fun t => t.2.1) h
      have he2 : e2 = none := congrArg (fun t => t.2.2) h
      rw [he2] at hrec
      obtain ⟨hr2eq, hsz2eq⟩ := ih { r with pos := r.pos + 2 } r2 sz2 hrec
      simp only [List.length_cons]
      constructor
      · rw [← hr2, hr2eq]
        dsimp only
        rw [show r.pos + 2 + 2 * xs.length = r.pos + 2 * (xs.length + 1) by ring]
      · rw [← hsz, hsz2eq]
        dsimp only
        exact sizesTable_cons r xs.length

/-- Shifting the payload-reading loop past the head of the stream vector. -/
lemma readPayloadsLoop_shift (sizes : List Nat) :
    ∀ (r : PagedReader) (b : ByteStreamReadBuffer) (bs : List ByteStreamReadBuffer) (i : Nat),
    readPayloadsLoop r (b :: bs) sizes (i + 1) =
      ((readPayloadsLoop r bs sizes i).1, b :: (readPayloadsLoop r bs sizes i).2.1,
        (readPayloadsLoop r bs sizes i).2.2) := by
  induction sizes with
  | nil => intro r b bs i; rfl
  | cons n ns ih =>
    intro r b bs i
    simp only [readPayloadsLoop]
    cases r.read_exact n with
    | none => rfl
    | some br =>
      rcases br with ⟨bytes, r1⟩
      dsimp only
      rw [List.set_cons_succ, List.getD_cons_succ]
      exact ih r1 b (bs.set i ((bs.getD i ⟨[]⟩).append bytes)) (i + 1)

/-- Success closed form of the payload-reading loop: with enough bytes it
advances the reader by the sum of the declared sizes and appends stream `i`'s
run to buffer `i`. -/
lemma readPayloadsLoop_complete :
    ∀ (sizes : List Nat) (r : PagedReader) (streams : List ByteStreamReadBuffer),
    streams.length = sizes.length →
    r.pos + sizes.sum ≤ r.data.length →
    readPayloadsLoop r streams sizes 0 =
      ({ r with pos := r.pos + sizes.sum }, appendPayloads r.data r.pos streams sizes,
       none) := by
  intro sizes
  induction sizes with
  | nil =>
    intro r streams hlen _
    have hnil : streams = [] := List.length_eq_zero.mp hlen
    subst hnil
    rfl
  | cons n ns ih =>
    intro r streams hlen hb
    rcases streams with _ | ⟨b, bs⟩
    · simp at hlen
    simp only [List.sum_cons] at hb
    have hre : r.read_exact n =
        some ((r.data.drop r.pos).take n, { r with pos := r.pos + n }) := by
      unfold PagedReader.read_exact
      rw [if_pos (by omega)]
    simp only [readPayloadsLoop, hre]
    rw [List.getD_cons_zero, List.set_cons_zero, readPayloadsLoop_shift]
    rw [ih { r with pos := r.pos + n } bs (by simpa using hlen) (by dsimp only; omega)]
    dsimp only
    rw [show r.pos + n + ns.sum = r.pos + (n :: ns).sum by simp [List.sum_cons]; ring]
    rfl

/-- Error-free elimination for the payload-reading loop. -/
lemma readPayloadsLoop_none :
    ∀ (sizes : List Nat) (r r' : PagedReader) (streams st' : List ByteStreamReadBuffer),
    streams.length = sizes.length →
    readPayloadsLoop r streams sizes 0 = (r', st', none) →
    r' = { r with pos := r.pos + sizes.sum } ∧
      st' = appendPayloads r.data r.pos streams sizes := by
  intro sizes
  induction sizes with
  | nil =>
    intro r r' streams st' hlen h
    have hnil : streams = [] := List.length_eq_zero.mp hlen
    subst hnil
    have h1 : r = r' := congrArg (fun t => t.1) h
    have h2 : ([] : List ByteStreamReadBuffer) = st' := congrArg (fun t => t.2.1) h
    exact ⟨h1.symm, h2.symm⟩
  | cons n ns ih =>
    intro r r' streams st' hlen h
    rcases streams with _ | ⟨b, bs⟩
    · simp at hlen
    simp only [readPayloadsLoop] at h
    cases hre : r.read_exact n with
    | none =>
      rw [hre] at h
      have hcontra : (some (E57Error.ioError "Failed to read data packet buffers")
          : Option E57Error) = none := congrArg (fun t => t.2.2) h
      cases hcontra
    | some br =>
      rcases br with ⟨bytes, r1⟩
      have hb : r.pos + n ≤ r.data.length ∧ bytes = (r.data.drop r.pos).take n ∧
          r1 = { r with pos := r.pos + n } := by
        unfold PagedReader.read_exact at hre
        by_cases hc : r.pos + n ≤ r.data.length
        · rw [if_pos hc] at hre
          rw [Option.some.injEq, Prod.mk.injEq] at hre
          exact ⟨hc, hre.1.symm, hre.2.symm⟩
        · rw [if_neg hc] at hre
          cases hre
      obtain ⟨hble, rfl, rfl⟩ := hb
      rw [hre] at h
      dsimp only at h
      rw [List.getD_cons_zero, List.set_cons_zero, readPayloadsLoop_shift] at h
      rcases hrec : readPayloadsLoop { r with pos := r.pos + n } bs ns 0 with ⟨r2, st2, e2⟩
      rw [hrec] at h
      dsimp only at h
      have hr2 : r2 = r' := congrArg (fun t => t.1) h
      have hst : b.append ((r.data.drop r.pos).take n) :: st2 = st' :=
        congrArg (fun t => t.2.1) h
      have he2 : e2 = none := congrArg (fun t => t.2.2) h
      rw [he2] at hrec
      obtain ⟨hr2eq, hst2eq⟩ := ih { r with pos := r.pos + n } r2 bs st2
        (by simpa using hlen) hrec
      constructor
      · rw [← hr2, hr2eq]
        dsimp only
        rw [show r.pos + n + ns.sum = r.pos + (n :: ns).sum by simp [List.sum_cons]; ring]
      · rw [← hst, hst2eq]
        rfl

/-- Shifting the decode loop past the heads of the stream and queue
vectors. -/
lemma decodeLoop_shift (proto : List Record) :
    ∀ (b : ByteStreamReadBuffer) (bs : List ByteStreamReadBuffer)
      (q : List RecordValue) (qs : List (List RecordValue)) (i : Nat),
    decodeLoop (b :: bs) (q :: qs) proto (i + 1) =
      (b :: (decodeLoop bs qs proto i).1, q :: (decodeLoop bs qs proto i).2.1,
        (decodeLoop bs qs proto i).2.2) := by
  induction proto with
  | nil => intro b bs q qs i; rfl
  | cons f fs ih =>
    intro b bs q qs i
    simp only [decodeLoop, List.getD_cons_succ]
    cases decodeOne f.dataType (bs.getD i ⟨[]⟩) (qs.getD i []) with
    | error e => rfl
    | ok bq =>
      rcases bq with ⟨b1, q1⟩
      dsimp only
      rw [List.set_cons_succ, List.set_cons_succ]
      exact ih b (bs.set i b1) q (qs.set i q1) (i + 1)

/-- The indexed decode loop refines the spec-side structural recursion: a
successful `decodeStreams` run is exactly what `decodeLoop` computes. -/
lemma decodeLoop_of_decodeStreams :
    ∀ (proto : List Record) (streams : List ByteStreamReadBuffer)
      (queues : List (List RecordValue)) (st' : List ByteStreamReadBuffer)
      (q' : List (List RecordValue)),
    streams.length = proto.length → queues.length = proto.length →
    decodeStreams proto streams queues = .ok (st', q') →
    decodeLoop streams queues proto 0 = (st', q', none) := by
  intro proto
  induction proto with
  | nil =>
    intro streams queues st' q' h1 h2 hd
    have hs : streams = [] := List.length_eq_zero.mp h1
    have hq : queues = [] := List.length_eq_zero.mp h2
    subst hs
    subst hq
    simp only [decodeStreams, Except.ok.injEq, Prod.mk.injEq] at hd
    obtain ⟨rfl, rfl⟩ := hd
    rfl
  | cons f fs ih =>
    intro streams queues st' q' h1 h2 hd
    rcases streams with _ | ⟨b, bs⟩
    · simp at h1
    rcases queues with _ | ⟨q, qs⟩
    · simp at h2
    simp only [decodeStreams] at hd
    cases hone : decodeOne f.dataType b q with
    | error e =>
      rw [hone] at hd
      cases hd
    | ok bq =>
      rcases bq with ⟨b1, q1⟩
      rw [hone] at hd
      dsimp only at hd
      cases hrest : decodeStreams fs bs qs with
      | error e =>
        rw [hrest] at hd
        cases hd
      | ok bq2 =>
        rcases bq2 with ⟨bs1, qs1⟩
        rw [hrest] at hd
        simp only [Except.ok.injEq, Prod.mk.injEq] at hd
        obtain ⟨rfl, rfl⟩ := hd
        simp only [decodeLoop, List.getD_cons_zero, hone]
        rw [List.set_cons_zero, List.set_cons_zero, decodeLoop_shift]
        rw [ih bs qs bs1 qs1 (by simpa using h1) (by simpa using h2) hrest]

/-- Error-free elimination for the decode loop: a run that reports no error
agrees with the spec-side structural recursion. -/
lemma decodeStreams_of_decodeLoop :
    ∀ (proto : List Record) (streams : List ByteStreamReadBuffer)
      (queues : List (List RecordValue)) (st' : List ByteStreamReadBuffer)
      (q' : List (List RecordValue)),
    streams.length = proto.length → queues.length = proto.length →
    decodeLoop streams queues proto 0 = (st', q', none) →
    decodeStreams proto streams queues = .ok (st', q') := by
  intro proto
  induction proto with
  | nil =>
    intro streams queues st' q' h1 h2 h
    have hs : streams = [] := List.length_eq_zero.mp h1
    have hq : queues = [] := List.length_eq_zero.mp h2
    subst hs
    subst hq
    have e1 : ([] : List ByteStreamReadBuffer) = st' := congrArg (fun t => t.1) h
    have e2 : ([] : List (List RecordValue)) = q' := congrArg (fun t => t.2.1) h
    rw [← e1, ← e2]
    rfl
  | cons f fs ih =>
    intro streams queues st' q' h1 h2 h
    rcases streams with _ | ⟨b, bs⟩
    · simp at h1
    rcases queues with _ | ⟨q, qs⟩
    · simp at h2
    simp only [decodeLoop, List.getD_cons_zero] at h
    cases hone : decodeOne f.dataType b q with
    | error e =>
      rw [hone] at h
      have hcontra : (some e : Option E57Error) = none := congrArg (fun t => t.2.2) h
      cases hcontra
    | ok bq =>
      rcases bq with ⟨b1, q1⟩
      rw [hone] at h
      dsimp only at h
      rw [List.set_cons_zero, List.set_cons_zero, decodeLoop_shift] at h
      rcases hrec : decodeLoop bs qs fs 0 with ⟨bs1, qs1, e2⟩
      rw [hrec] at h
      dsimp only at h
      have e1 : b1 :: bs1 = st' := congrArg (fun t => t.1) h
      have e2' : q1 :: qs1 = q' := congrArg (fun t => t.2.1) h
      have e3 : e2 = none := congrArg (fun t => t.2.2) h
      rw [e3] at hrec
      have hds := ih bs qs bs1 qs1 (by simpa using h1) (by simpa using h2) hrec
      rw [← e1, ← e2']
      simp only [decodeStreams, hone, hds]

/-- Introduction for `decodeStreams` from index-wise decoder runs. -/
lemma decodeStreams_of_forall :
    ∀ (proto : List Record) (streams : List ByteStreamReadBuffer)
      (queues : List (List RecordValue)) (rests : List ByteStreamReadBuffer)
      (vals : List (List RecordValue)),
    streams.length = proto.length → queues.length = proto.length →
    rests.length = proto.length → vals.length = proto.length →
    (∀ i, i < proto.length →
      decodeOne ((proto.getD i junkRecord).dataType)
        (streams.getD i ⟨[]⟩) (queues.getD i []) = .ok (rests.getD i ⟨[]⟩, vals.getD i [])) →
    decodeStreams proto streams queues = .ok (rests, vals) := by
  intro proto
  induction proto with
  | nil =>
    intro streams queues rests vals h1 h2 h3 h4 _
    have hs : streams = [] := List.length_eq_zero.mp h1
    have hq : queues = [] := List.length_eq_zero.mp h2
    have hr : rests = [] := List.length_eq_zero.mp h3
    have hv : vals = [] := List.length_eq_zero.mp h4
    subst hs
    subst hq
    subst hr
    subst hv
    rfl
  | cons f fs ih =>
    intro streams queues rests vals h1 h2 h3 h4 hdec
    rcases streams with _ | ⟨b, bs⟩
    · simp at h1
    rcases queues with _ | ⟨q, qs⟩
    · simp at h2
    rcases rests with _ | ⟨rb, rbs⟩
    · simp at h3
    rcases vals with _ | ⟨v, vs⟩
    · simp at h4
    have h0 := hdec 0 (by simp)
    simp only [List.getD_cons_zero] at h0
    have hrest := ih bs qs rbs vs (by simpa using h1) (by simpa using h2)
      (by simpa using h3) (by simpa using h4) ?_
    · simp only [decodeStreams, h0, hrest]
    · intro i hi
      have := hdec (i + 1) (by simpa using hi)
      simpa only [List.getD_cons_succ] using this

/-- `appendPayloads` keeps the number of streams. -/
lemma appendPayloads_length (data : List Nat) :
    ∀ (bufs : List ByteStreamReadBuffer) (ns : List Nat) (pos : Nat),
    (appendPayloads data pos bufs ns).length = bufs.length := by
  intro bufs
  induction bufs with
  | nil => intro ns pos; cases ns <;> rfl
  | cons b bs ih =>
    intro ns pos
    cases ns with
    | nil => rfl
    | cons n ns' =>
      simp only [appendPayloads, List.length_cons]
      rw [ih ns' (pos + n)]

/-! ### Claim theorems -/

/-- C9: whenever the availability check reports at least one value in every
queue, assembling the point succeeds: `pop_queue_point` returns `Ok` with the
queue heads (the `Internal` error branch for popping an empty queue is not
taken). -/
theorem c9_pop_after_availability (s : PointCloudReaderRaw) (hWF : WF s)
    (hav : 1 ≤ s.available_in_queue) :
    s.pop_queue_point =
      ({ s with queues := s.queues.map List.tail },
       .ok (s.queues.map (fun q => q.headD junkValue))) := by
  apply pop_queue_point_ok s hWF
  intro q hmem
  intro h0
  have hle := available_le_of_mem s q hmem
  rw [h0] at hle
  simp at hle
  omega

/-- C9 witness: a concrete well-formed state with one value available. -/
theorem c9_pop_after_availability_witness :
    WF stateC9 ∧ 1 ≤ stateC9.available_in_queue ∧
      stateC9.pop_queue_point =
        ({ stateC9 with queues := stateC9.queues.map List.tail },
         .ok (stateC9.queues.map (fun q => q.headD junkValue))) :=
  ⟨by decide, by decide, c9_pop_after_availability stateC9 (by decide) (by decide)⟩

/-- C3: with points still to emit, an empty availability check triggers
exactly one packet ingestion (the ghost `advanceCalls` counter grows by
exactly one, never two), and when a successful ingestion still leaves some
queue empty, `next` returns end-of-stream rather than an error; with a value
already available no ingestion happens at all. -/
theorem c3_single_refill_then_end (s : PointCloudReaderRaw)
    (h1 : s.readCount < s.pc.records) :
    (s.available_in_queue = 0 →
      (s.next).1.advanceCalls = s.advanceCalls + 1 ∧
      ((s.advance).2 = none → (s.advance).1.available_in_queue = 0 →
        s.next = ((s.advance).1, none))) ∧
    (1 ≤ s.available_in_queue → (s.next).1.advanceCalls = s.advanceCalls) := by
  constructor
  · intro hav0
    have hcond : s.available_in_queue < 1 := by omega
    constructor
    · unfold PointCloudReaderRaw.next
      rw [if_neg (by omega), if_pos hcond]
      rcases hA : s.advance with ⟨s1, e⟩
      have hAc : s1.advanceCalls = s.advanceCalls + 1 := by
        have h := (advance_fields s).2.2
        rw [hA] at h
        exact h
      cases e with
      | some err =>
        dsimp only
        exact hAc
      | none =>
        dsimp only
        by_cases h2 : s1.available_in_queue < 1
        · rw [if_pos h2]
          exact hAc
        · rw [if_neg h2]
          rcases hP : s1.pop_queue_point with ⟨s2, res⟩
          have hPc : s2.advanceCalls = s1.advanceCalls := by
            have h := (pop_queue_point_fields s1).2.2.2.2.2
            rw [hP] at h
            exact h
          cases res with
          | ok p =>
            dsimp only
            omega
          | error err =>
            dsimp only
            omega
    · intro hsucc hav1
      unfold PointCloudReaderRaw.next
      rw [if_neg (by omega), if_pos hcond]
      rcases hA : s.advance with ⟨s1, e⟩
      rw [hA] at hsucc hav1
      dsimp only at hsucc hav1
      subst hsucc
      dsimp only
      rw [if_pos (show s1.available_in_queue < 1 by omega)]
  · intro hav1
    unfold PointCloudReaderRaw.next
    rw [if_neg (by omega), if_neg (by omega : ¬s.available_in_queue < 1)]
    dsimp only
    rw [if_neg (by omega : ¬s.available_in_queue < 1)]
    rcases hP : s.pop_queue_point with ⟨s2, res⟩
    have hPc : s2.advanceCalls = s.advanceCalls := by
      have h := (pop_queue_point_fields s).2.2.2.2.2
      rw [hP] at h
      exact h
    cases res with
    | ok p =>
      dsimp only
      omega
    | error err =>
      dsimp only
      omega

/-- C3 witness: a state with an empty queue and a packet supplying no values;
ingestion runs once and `next` ends the stream leniently. -/
theorem c3_single_refill_then_end_witness :
    stateC3.readCount < stateC3.pc.records ∧
      ((stateC3.available_in_queue = 0 →
        (stateC3.next).1.advanceCalls = stateC3.advanceCalls + 1 ∧
        ((stateC3.advance).2 = none → (stateC3.advance).1.available_in_queue = 0 →
          stateC3.next = ((stateC3.advance).1, none))) ∧
      (1 ≤ stateC3.available_in_queue →
        (stateC3.next).1.advanceCalls = stateC3.advanceCalls)) :=
  ⟨by decide, c3_single_refill_then_end stateC3 (by decide)⟩

/-- C5: a data packet whose `bytestream_count` differs from the prototype
size makes `advance` fail with the `InvalidFile` prototype-mismatch error,
with the reader left right after the packet header and no stream sizes or
payloads read (byte streams, queues and the size table are untouched). -/
theorem c5_prototype_mismatch (s : PointCloudReaderRaw) (dh : DataPacketHeader)
    (r1 : PagedReader) (hread : PacketHeader.read s.reader = .ok (.data dh, r1))
    (hmis : dh.bytestreamCount ≠ s.byteStreams.length) :
    s.advance =
      ({ s with reader := r1, advanceCalls := s.advanceCalls + 1 },
       some (.invalidFile "Bytestream count does not match prototype size")) := by
  unfold PointCloudReaderRaw.advance
  dsimp only
  rw [show ({ s with advanceCalls := s.advanceCalls + 1 } : PointCloudReaderRaw).reader
        = s.reader from rfl, hread]
  simp only [hmis, if_true, ne_eq, not_false_eq_true]

/-- C5 witness: an empty prototype against a header declaring one stream. -/
theorem c5_prototype_mismatch_witness :
    PacketHeader.read stateC5.reader =
        .ok (.data { packetLength := 3, bytestreamCount := 1 },
             { data := [1, 0, 3, 0, 1, 0], pos := 6 }) ∧
      (1 : Nat) ≠ stateC5.byteStreams.length ∧
      stateC5.advance =
        ({ stateC5 with reader := { data := [1, 0, 3, 0, 1, 0], pos := 6 },
                        advanceCalls := 1 },
         some (.invalidFile "Bytestream count does not match prototype size")) :=
  ⟨rfl, by decide,
    c5_prototype_mismatch stateC5 { packetLength := 3, bytestreamCount := 1 }
      { data := [1, 0, 3, 0, 1, 0], pos := 6 } rfl (by decide)⟩

/-- C6: Index and Ignored packet headers make `advance` fail with the
`Unimplemented` error kind — a constructor distinct from `InvalidFile` —
leaving the state untouched except for the reader sitting right after the
type byte: no packet payload is consumed. -/
theorem c6_index_ignored_unimplemented (s : PointCloudReaderRaw) (r1 : PagedReader) :
    (PacketHeader.read s.reader = .ok (.index, r1) →
      s.advance = ({ s with reader := r1, advanceCalls := s.advanceCalls + 1 },
        some (.unimplemented "Index packets are not yet supported"))) ∧
    (PacketHeader.read s.reader = .ok (.ignored, r1) →
      s.advance = ({ s with reader := r1, advanceCalls := s.advanceCalls + 1 },
        some (.unimplemented "Ignored packets are not yet supported"))) ∧
    (∀ m m', E57Error.unimplemented m ≠ E57Error.invalidFile m') := by
  refine ⟨?_, ?_, fun m m' h => E57Error.noConfusion h⟩
  · intro hread
    unfold PointCloudReaderRaw.advance
    dsimp only
    rw [show ({ s with advanceCalls := s.advanceCalls + 1 } : PointCloudReaderRaw).reader
          = s.reader from rfl, hread]
  · intro hread
    unfold PointCloudReaderRaw.advance
    dsimp only
    rw [show ({ s with advanceCalls := s.advanceCalls + 1 } : PointCloudReaderRaw).reader
          = s.reader from rfl, hread]

/-- C6 witness: concrete Index and Ignored packets, each rejected as
unimplemented with only the type byte consumed. -/
theorem c6_index_ignored_unimplemented_witness :
    PacketHeader.read stateC6a.reader = .ok (.index, { data := [0], pos := 1 }) ∧
      stateC6a.advance =
        ({ stateC6a with reader := { data := [0], pos := 1 }, advanceCalls := 1 },
         some (.unimplemented "Index packets are not yet supported")) ∧
      PacketHeader.read stateC6b.reader = .ok (.ignored, { data := [2], pos := 1 }) ∧
      stateC6b.advance =
        ({ stateC6b with reader := { data := [2], pos := 1 }, advanceCalls := 1 },
         some (.unimplemented "Ignored packets are not yet supported")) :=
  ⟨rfl,
   (c6_index_ignored_unimplemented stateC6a { data := [0], pos := 1 }).1 rfl,
   rfl,
   (c6_index_ignored_unimplemented stateC6b { data := [2], pos := 1 }).2.1 rfl⟩

/-- C10: with an empty prototype the availability check is constantly 0, so
`next` can never emit a point: it runs at most one packet ingestion and, when
that ingestion succeeds, returns end-of-stream even though `records` may
still be positive. -/
theorem c10_empty_prototype (s : PointCloudReaderRaw) (hWF : WF s)
    (hp : s.pc.prototype = []) :
    s.available_in_queue = 0 ∧
    (∀ p, (s.next).2 ≠ some (.ok p)) ∧
    (s.next).1.advanceCalls ≤ s.advanceCalls + 1 ∧
    ((s.advance).2 = none → s.readCount < s.pc.records → s.next = ((s.advance).1, none)) := by
  have hqnil : s.queues = [] := by
    apply List.length_eq_zero.mp
    rw [hWF.2.1, hp]
    rfl
  have hav : s.available_in_queue = 0 := available_of_queues_nil s hqnil
  by_cases hdone : s.pc.records ≤ s.readCount
  · rw [next_done s hdone]
    refine ⟨hav, ?_, ?_, ?_⟩
    · intro p h
      cases h
    · simp
    · intro _ hlt
      omega
  · have hnext : (∃ err, (s.advance).2 = some err ∧
          s.next = ((s.advance).1, some (.error err))) ∨
        ((s.advance).2 = none ∧ s.next = ((s.advance).1, none)) := by
      unfold PointCloudReaderRaw.next
      rw [if_neg hdone, if_pos (by omega)]
      rcases hA : s.advance with ⟨s1, e⟩
      cases e with
      | some err =>
        left
        exact ⟨err, rfl, rfl⟩
      | none =>
        right
        refine ⟨rfl, ?_⟩
        dsimp only
        have hq1 : s1.queues = [] := by
          have h := advance_queues_of_proto_nil s hp
          rw [hA] at h
          exact h.trans hqnil
        rw [if_pos (by rw [available_of_queues_nil s1 hq1]; omega)]
    have hcalls := (advance_fields s).2.2
    refine ⟨hav, ?_, ?_, ?_⟩
    · intro p h
      rcases hnext with ⟨err, _, hn⟩ | ⟨_, hn⟩
      · rw [hn] at h
        simp at h
      · rw [hn] at h
        cases h
    · rcases hnext with ⟨err, _, hn⟩ | ⟨_, hn⟩ <;> rw [hn] <;> dsimp only <;> omega
    · intro he _
      rcases hnext with ⟨err, herr, hn⟩ | ⟨_, hn⟩
      · rw [he] at herr
        cases herr
      · exact hn

/-- C10 witness: empty prototype, one declared record, a data packet with
zero byte streams; one ingestion then end-of-stream. -/
theorem c10_empty_prototype_witness :
    WF stateC10 ∧ stateC10.pc.prototype = [] ∧
      (stateC10.available_in_queue = 0 ∧
       (∀ p, (stateC10.next).2 ≠ some (.ok p)) ∧
       (stateC10.next).1.advanceCalls ≤ stateC10.advanceCalls + 1 ∧
       ((stateC10.advance).2 = none → stateC10.readCount < stateC10.pc.records →
         stateC10.next = ((stateC10.advance).1, none))) :=
  ⟨by decide, rfl, c10_empty_prototype stateC10 (by decide) rfl⟩

/-- One call to `next` keeps the descriptor; the emitted counter grows by one
exactly on an `Ok` item (and only below `records`) and is unchanged on
end-of-stream and on error items. -/
lemma next_shape (s : PointCloudReaderRaw) :
    (s.next).1.pc = s.pc ∧
    (∀ p, (s.next).2 = some (.ok p) →
        s.readCount < s.pc.records ∧ (s.next).1.readCount = s.readCount + 1) ∧
    (((s.next).2 = none ∨ (∃ e, (s.next).2 = some (.error e))) →
        (s.next).1.readCount = s.readCount) := by
  unfold PointCloudReaderRaw.next
  by_cases hdone : s.pc.records ≤ s.readCount
  · rw [if_pos hdone]
    exact ⟨rfl, fun p hp => by simp at hp, fun _ => rfl⟩
  · rw [if_neg hdone]
    by_cases hc : s.available_in_queue < 1
    · rw [if_pos hc]
      rcases hA : s.advance with ⟨s1, e⟩
      have hA1 : s1.pc = s.pc := by
        have hx := (advance_fields s).1
        rw [hA] at hx
        exact hx
      have hA2 : s1.readCount = s.readCount := by
        have hx := (advance_fields s).2.1
        rw [hA] at hx
        exact hx
      cases e with
      | some err =>
        dsimp only
        exact ⟨hA1, fun p hp => by simp at hp, fun _ => hA2⟩
      | none =>
        dsimp only
        by_cases hc1 : s1.available_in_queue < 1
        · rw [if_pos hc1]
          exact ⟨hA1, fun p hp => by simp at hp, fun _ => hA2⟩
        · rw [if_neg hc1]
          rcases hP : s1.pop_queue_point with ⟨s2, res⟩
          have hP1 : s2.pc = s1.pc := by
            have hx := (pop_queue_point_fields s1).1
            rw [hP] at hx
            exact hx
          have hP2 : s2.readCount = s1.readCount := by
            have hx := (pop_queue_point_fields s1).2.2.2.1
            rw [hP] at hx
            exact hx
          cases res with
          | ok p =>
            dsimp only
            refine ⟨hP1.trans hA1, fun p2 hp2 => ⟨by omega, by rw [hP2, hA2]⟩, ?_⟩
            rintro (hx | ⟨e2, hx⟩) <;> simp at hx
          | error err =>
            dsimp only
            exact ⟨hP1.trans hA1, fun p hp => by simp at hp,
              fun _ => by rw [hP2, hA2]⟩
    · rw [if_neg hc]
      dsimp only
      rw [if_neg hc]
      rcases hP : s.pop_queue_point with ⟨s2, res⟩
      have hP1 : s2.pc = s.pc := by
        have hx := (pop_queue_point_fields s).1
        rw [hP] at hx
        exact hx
      have hP2 : s2.readCount = s.readCount := by
        have hx := (pop_queue_point_fields s).2.2.2.1
        rw [hP] at hx
        exact hx
      cases res with
      | ok p =>
        dsimp only
        refine ⟨hP1, fun p2 hp2 => ⟨by omega, by rw [hP2]⟩, ?_⟩
        rintro (hx | ⟨e2, hx⟩) <;> simp at hx
      | error err =>
        dsimp only
        exact ⟨hP1, fun p hp => by simp at hp, fun _ => hP2⟩

/-- C8: `size_hint` returns `(records − emitted, Some (records − emitted))`;
it decreases by exactly one across a successfully emitted point, is
`(0, Some 0)` once the emitted counter reaches `records`, and is unchanged by
end-of-stream results and error items. -/
theorem c8_size_hint (s s' : PointCloudReaderRaw)
    (it : Option (Except E57Error (List RecordValue))) (h : s.next = (s', it)) :
    s.size_hint = (s.pc.records - s.readCount, some (s.pc.records - s.readCount)) ∧
    (∀ p, it = some (.ok p) →
      (s'.size_hint).1 + 1 = (s.size_hint).1 ∧
      s'.size_hint = ((s.size_hint).1 - 1, some ((s.size_hint).1 - 1))) ∧
    (s'.readCount = s'.pc.records → s'.size_hint = (0, some 0)) ∧
    ((it = none ∨ ∃ e, it = some (.error e)) → s'.size_hint = s.size_hint) := by
  have hsh := next_shape s
  rw [h] at hsh
  dsimp only at hsh
  obtain ⟨hpc, hok, herr⟩ := hsh
  refine ⟨rfl, ?_, ?_, ?_⟩
  · intro p hp
    obtain ⟨hlt, hrc⟩ := hok p hp
    unfold PointCloudReaderRaw.size_hint
    rw [hpc, hrc]
    dsimp only
    constructor
    · omega
    · rw [show s.pc.records - (s.readCount + 1) = s.pc.records - s.readCount - 1 by omega]
  · intro hrc'
    unfold PointCloudReaderRaw.size_hint
    rw [hrc']
    simp
  · intro hcase
    have hrc := herr hcase
    unfold PointCloudReaderRaw.size_hint
    rw [hpc, hrc]

/-- C8 witness: one emission from a state with two queued values; `size_hint`
drops from `(3, some 3)` to `(2, some 2)`. -/
theorem c8_size_hint_witness :
    stateC8.next = ((stateC8.next).1, (stateC8.next).2) ∧
      (stateC8.size_hint =
        (stateC8.pc.records - stateC8.readCount,
         some (stateC8.pc.records - stateC8.readCount)) ∧
      (∀ p, (stateC8.next).2 = some (.ok p) →
        ((stateC8.next).1.size_hint).1 + 1 = (stateC8.size_hint).1 ∧
        (stateC8.next).1.size_hint =
          ((stateC8.size_hint).1 - 1, some ((stateC8.size_hint).1 - 1))) ∧
      ((stateC8.next).1.readCount = (stateC8.next).1.pc.records →
        (stateC8.next).1.size_hint = (0, some 0)) ∧
      (((stateC8.next).2 = none ∨ ∃ e, (stateC8.next).2 = some (.error e)) →
        (stateC8.next).1.size_hint = stateC8.size_hint)) :=
  ⟨rfl, c8_size_hint stateC8 (stateC8.next).1 (stateC8.next).2 rfl⟩

/-- C2 counterexample: the claim "after an error item every further call
returns end-of-stream" is false for the code: on `stateC2` the first call
returns an error item and the second call returns another error item, not
end-of-stream — the iterator is not poisoned. -/
theorem c2_poisoning_counterexample :
    (stateC2.next).2 =
        some (.error (.unimplemented "Index packets are not yet supported")) ∧
      ((stateC2.next).1.next).2 =
        some (.error (.unimplemented "Index packets are not yet supported")) ∧
      ((stateC2.next).1.next).2 ≠ none := by
  have h2 : ((stateC2.next).1.next).2 =
      some (.error (.unimplemented "Index packets are not yet supported")) := rfl
  refine ⟨rfl, h2, ?_⟩
  rw [h2]
  simp

/-- C2 (amended): an error item from `next` leaves the descriptor, the
emitted counter and `size_hint` unchanged; the iterator is not poisoned and
the following call simply re-runs the normal `next` logic (which may fail
again, as the counterexample shows). -/
theorem c2_error_items_do_not_poison (s s' : PointCloudReaderRaw) (e : E57Error)
    (h : s.next = (s', some (.error e))) :
    s'.pc = s.pc ∧ s'.readCount = s.readCount ∧ s'.size_hint = s.size_hint := by
  have hsh := next_shape s
  rw [h] at hsh
  dsimp only at hsh
  obtain ⟨hpc, _, herr⟩ := hsh
  have hrc := herr (Or.inr ⟨e, rfl⟩)
  refine ⟨hpc, hrc, ?_⟩
  unfold PointCloudReaderRaw.size_hint
  rw [hpc, hrc]

/-- C2 amended-claim witness: the first error item of `stateC2`. -/
theorem c2_error_items_do_not_poison_witness :
    stateC2.next = ((stateC2.next).1,
        some (.error (.unimplemented "Index packets are not yet supported"))) ∧
      ((stateC2.next).1.pc = stateC2.pc ∧
        (stateC2.next).1.readCount = stateC2.readCount ∧
        (stateC2.next).1.size_hint = stateC2.size_hint) :=
  ⟨rfl, c2_error_items_do_not_poison stateC2 (stateC2.next).1
    (.unimplemented "Index packets are not yet supported") rfl⟩

/-- C7: under availability, the `k`-th emitted point is a tuple of arity
`prototype.len()` whose `i`-th value is the `k`-th entry of queue `i` — one
value popped from the front of each per-field queue in field order — and
after `k + 1` emissions every queue has lost exactly its first `k + 1`
values. -/
theorem c7_point_assembly (s : PointCloudReaderRaw) (hWF : WF s)
    (hne : s.pc.prototype ≠ []) (k : Nat)
    (hq : ∀ q ∈ s.queues, k < q.length) (hr : k < s.pc.records - s.readCount) :
    ∃ p, itemAt s k = some (.ok p) ∧
      p.length = s.pc.prototype.length ∧
      List.map some p = s.queues.map (fun q => q[k]?) ∧
      (stateAfter s (k + 1)).queues = s.queues.map (List.drop (k + 1)) := by
  have hq1 : ∀ q ∈ s.queues, k + 1 ≤ q.length := fun q hmem => hq q hmem
  refine ⟨(s.queues.map (List.drop k)).map (fun q => q.headD junkValue),
    itemAt_pops s hWF hne (k + 1) hq1 k (by omega) hr, ?_, ?_, ?_⟩
  · rw [List.length_map, List.length_map]
    exact hWF.2.1
  · rw [List.map_map, List.map_map]
    apply List.map_congr_left
    intro q hmem
    have hk : k < q.length := hq q hmem
    show some ((q.drop k).headD junkValue) = q[k]?
    rw [List.headD_eq_head?, List.head?_drop, List.getElem?_eq_getElem hk]
    rfl
  · rw [stateAfter_pops s hWF hne (k + 1) hq1 (k + 1) (by omega) (by omega)]

/-- C7 witness: two fields with two queued values each; the point at index 1
is `(queue0[1], queue1[1])`. -/
theorem c7_point_assembly_witness :
    WF stateC7 ∧ stateC7.pc.prototype ≠ [] ∧
      (∀ q ∈ stateC7.queues, 1 < q.length) ∧
      1 < stateC7.pc.records - stateC7.readCount ∧
      (∃ p, itemAt stateC7 1 = some (.ok p) ∧
        p.length = stateC7.pc.prototype.length ∧
        List.map some p = stateC7.queues.map (fun q => q[1]?) ∧
        (stateAfter stateC7 2).queues = stateC7.queues.map (List.drop 2)) :=
  ⟨by decide, by decide, by decide, by decide,
    c7_point_assembly stateC7 (by decide) (by decide) 1 (by decide) (by decide)⟩

/-- C4: a successful `advance` run on a data packet performed exactly the
specified ingestion: the header was parsed, `bytestream_count` matched the
stream vector, the size table is the `bytestream_count` little-endian `u16`
values following the header, each payload run (of the declared size, in
index order) was appended to its byte-stream buffer, each stream was drained
by the decoder selected by `prototype[i].data_type` (via `decodeStreams`),
and the reader ended at the 4-byte alignment of the position just past the
payloads. -/
theorem c4_data_packet_ingestion_order (s s' : PointCloudReaderRaw) (hWF : WF s)
    (h : s.advance = (s', none)) :
    ∃ dh r1,
      PacketHeader.read s.reader = .ok (.data dh, r1) ∧
      dh.bytestreamCount = s.byteStreams.length ∧
      s'.bufferSizes = (List.range s.byteStreams.length).map
        (fun k => u16le ((r1.data.drop (r1.pos + 2 * k)).take 2)) ∧
      decodeStreams s.pc.prototype
        (appendPayloads r1.data (r1.pos + 2 * s.byteStreams.length) s.byteStreams
          s'.bufferSizes)
        s.queues = .ok (s'.byteStreams, s'.queues) ∧
      s'.reader = { data := r1.data,
                    pos := align4 (r1.pos + 2 * s.byteStreams.length + s'.bufferSizes.sum) } := by
  have hlenBS : s.bufferSizes.length = s.byteStreams.length := hWF.2.2.trans hWF.1.symm
  unfold PointCloudReaderRaw.advance at h
  dsimp only at h
  cases hread : PacketHeader.read s.reader with
  | error e =>
    rw [hread] at h
    have hx : (some e : Option E57Error) = none := congrArg (fun t => t.2) h
    cases hx
  | ok hr =>
    rcases hr with ⟨hdr, r1⟩
    rw [hread] at h
    dsimp only at h
    cases hdr with
    | index =>
      have hx : (some (E57Error.unimplemented "Index packets are not yet supported")
          : Option E57Error) = none := congrArg (fun t => t.2) h
      cases hx
    | ignored =>
      have hx : (some (E57Error.unimplemented "Ignored packets are not yet supported")
          : Option E57Error) = none := congrArg (fun t => t.2) h
      cases hx
    | data dh =>
      dsimp only at h
      by_cases hcnt : dh.bytestreamCount ≠ s.byteStreams.length
      · rw [if_pos hcnt] at h
        have hx : (some (E57Error.invalidFile "Bytestream count does not match prototype size")
            : Option E57Error) = none := congrArg (fun t => t.2) h
        cases hx
      · rw [if_neg hcnt] at h
        push_neg at hcnt
        rcases hsz : readSizesLoop r1 s.bufferSizes 0 dh.bytestreamCount with ⟨r2, sizes2, e1⟩
        rw [hsz] at h
        dsimp only at h
        cases e1 with
        | some e =>
          have hx : (some e : Option E57Error) = none := congrArg (fun t => t.2) h
          cases hx
        | none =>
          rw [show dh.bytestreamCount = s.bufferSizes.length from hcnt.trans hlenBS.symm]
            at hsz
          obtain ⟨hr2, hsz2⟩ := readSizesLoop_none s.bufferSizes r1 r2 sizes2 hsz
          rcases hpl : readPayloadsLoop r2 s.byteStreams sizes2 0 with ⟨r3, streams3, e2⟩
          rw [hpl] at h
          dsimp only at h
          cases e2 with
          | some e =>
            have hx : (some e : Option E57Error) = none := congrArg (fun t => t.2) h
            cases hx
          | none =>
            have hlenSz : s.byteStreams.length = sizes2.length := by
              rw [hsz2, List.length_map, List.length_range, hlenBS]
            obtain ⟨hr3, hst3⟩ :=
              readPayloadsLoop_none sizes2 r2 r3 s.byteStreams streams3 hlenSz hpl
            rcases hdc : decodeLoop streams3 s.queues s.pc.prototype 0
              with ⟨streams4, queues4, e3⟩
            rw [hdc] at h
            dsimp only at h
            cases e3 with
            | some e =>
              have hx : (some e : Option E57Error) = none := congrArg (fun t => t.2) h
              cases hx
            | none =>
              have hlenS3 : streams3.length = s.pc.prototype.length := by
                rw [hst3, appendPayloads_length]
                exact hWF.1
              have hds := decodeStreams_of_decodeLoop s.pc.prototype streams3 s.queues
                streams4 queues4 hlenS3 hWF.2.1 hdc
              have hs' := (congrArg (fun t => t.1) h).symm
              dsimp only at hs'
              refine ⟨dh, r1, rfl, hcnt, ?_, ?_, ?_⟩
              · rw [hs']
                dsimp only
                rw [hsz2, hlenBS]
              · rw [hs']
                dsimp only
                rw [hsz2]
                rw [← hsz2]
                have hpos2 : r2.data = r1.data ∧ r2.pos = r1.pos + 2 * s.byteStreams.length := by
                  rw [hr2]
                  exact ⟨rfl, by dsimp only; rw [hlenBS]⟩
                rw [← hpos2.1, ← hpos2.2, ← hst3]
                exact hds
              · rw [hs']
                dsimp only
                unfold PagedReader.align
                rw [hr3, hr2]
                dsimp only
                rw [hlenBS]

/-- C4 witness: the complete data packet of `stateC4` is ingested in the
specified order. -/
theorem c4_data_packet_ingestion_order_witness :
    WF stateC4 ∧ (stateC4.advance).2 = none ∧
      (∃ dh r1,
        PacketHeader.read stateC4.reader = .ok (.data dh, r1) ∧
        dh.bytestreamCount = stateC4.byteStreams.length ∧
        (stateC4.advance).1.bufferSizes = (List.range stateC4.byteStreams.length).map
          (fun k => u16le ((r1.data.drop (r1.pos + 2 * k)).take 2)) ∧
        decodeStreams stateC4.pc.prototype
          (appendPayloads r1.data (r1.pos + 2 * stateC4.byteStreams.length)
            stateC4.byteStreams ((stateC4.advance).1.bufferSizes))
          stateC4.queues = .ok ((stateC4.advance).1.byteStreams, (stateC4.advance).1.queues) ∧
        (stateC4.advance).1.reader =
          { data := r1.data,
            pos := align4 (r1.pos + 2 * stateC4.byteStreams.length +
              ((stateC4.advance).1.bufferSizes).sum) }) :=
  ⟨by decide, rfl,
    c4_data_packet_ingestion_order stateC4 (stateC4.advance).1 (by decide) rfl⟩

/-! ### C1 machinery: decoding a constructed single-packet section -/

/-- `u16le` inverts the two-byte little-endian encoding. -/
lemma u16le_enc2 (n : Nat) (h : n < 65536) : u16le (enc2 n) = n := by
  simp only [u16le, enc2]
  omega

/-- The size table of a packet occupies two bytes per stream. -/
lemma sizesBlocks_length (payloads : List (List Nat)) :
    ((payloads.map (fun p => enc2 p.length)).flatten).length = 2 * payloads.length := by
  induction payloads with
  | nil => rfl
  | cons p ps ih =>
    rw [List.map_cons, List.flatten_cons, List.length_append, ih]
    simp only [enc2, List.length_cons, List.length_nil]
    omega

/-- Total length of the constructed packet. -/
lemma packetBytes_length (n : Nat) (payloads : List (List Nat)) :
    (packetBytes n payloads).length
      = 6 + (2 * payloads.length + payloads.flatten.length) := by
  simp only [packetBytes, List.length_append, sizesBlocks_length]
  simp only [enc2, List.length_append, List.length_cons, List.length_nil]

/-- Slicing two bytes at offset `2 * k` out of a flattened list of two-byte
blocks returns block `k`. -/
lemma flatten_blocks_slice :
    ∀ (blocks : List (List Nat)) (rest : List Nat) (k : Nat),
    (∀ b ∈ blocks, b.length = 2) → k < blocks.length →
    ((blocks.flatten ++ rest).drop (2 * k)).take 2 = blocks.getD k [] := by
  intro blocks
  induction blocks with
  | nil =>
    intro rest k _ hk
    simp at hk
  | cons b bs ih =>
    intro rest k hlen hk
    have hb := hlen b (List.mem_cons_self _ _)
    cases k with
    | zero =>
      simp only [Nat.mul_zero, List.drop_zero, List.getD_cons_zero, List.flatten_cons,
        List.append_assoc]
      rw [← hb, List.take_left]
    | succ j =>
      rw [List.flatten_cons, List.append_assoc, List.getD_cons_succ]
      rw [show 2 * (j + 1) = b.length + 2 * j by omega]
      rw [List.drop_append]
      exact ih rest j (fun b2 hb2 => hlen b2 (List.mem_cons_of_mem _ hb2)) (by simpa using hk)

/-- `getD` through `map` below the length. -/
lemma getD_map_lt {α β : Type} (f : α → β) (l : List α) (k : Nat) (d : β) (d2 : α)
    (h : k < l.length) : (l.map f).getD k d = f (l.getD k d2) := by
  rw [List.getD_eq_getElem _ _ (by simpa using h), List.getD_eq_getElem _ _ h,
    List.getElem_map]

/-- `getD` on `replicate` below the length. -/
lemma getD_replicate_lt {α : Type} (a d : α) (n k : Nat) (h : k < n) :
    (List.replicate n a).getD k d = a := by
  rw [List.getD_eq_getElem _ _ (by simpa using h)]
  simp

/-- `stateAfter` composes additively. -/
lemma stateAfter_add (s : PointCloudReaderRaw) (a : Nat) :
    ∀ b, stateAfter s (a + b) = stateAfter (stateAfter s a) b := by
  intro b
  induction b with
  | zero => rfl
  | succ t ih =>
    show ((stateAfter s (a + t)).next).1 = _
    rw [ih]
    rfl

/-- The iterator never changes its descriptor. -/
lemma stateAfter_pc (s : PointCloudReaderRaw) : ∀ k, (stateAfter s k).pc = s.pc := by
  intro k
  induction k with
  | zero => rfl
  | succ t ih =>
    show ((stateAfter s t).next).1.pc = s.pc
    rw [(next_shape (stateAfter s t)).1, ih]


/-! ### C1 machinery: multi-packet sections -/

/-- `align4` lands on a multiple of 4. -/
lemma align4_mod (L : Nat) : align4 L % 4 = 0 := by
  unfold align4
  omega

/-- `align4` distributes over an already aligned prefix. -/
lemma align4_add_left (p L : Nat) (hp : p % 4 = 0) : align4 (p + L) = p + align4 L := by
  unfold align4
  omega

/-- The padded packet's length is the aligned packet length. -/
lemma paddedPacket_length (n : Nat) (pk : List (List Nat)) :
    (paddedPacket n pk).length = align4 (packetBytes n pk).length := by
  unfold paddedPacket align4
  rw [List.length_append, List.length_replicate]

/-- `getD` below the length is a member. -/
lemma getD_mem {α : Type} (l : List α) (k : Nat) (d : α) (h : k < l.length) :
    l.getD k d ∈ l := by
  rw [List.getD_eq_getElem _ _ h]
  exact List.getElem_mem h

/-- A member sits at some index, recoverable through `getD`. -/
lemma exists_getD_of_mem {α : Type} (l : List α) (x : α) (d : α) (h : x ∈ l) :
    ∃ k, k < l.length ∧ l.getD k d = x := by
  obtain ⟨k, hk, he⟩ := List.mem_iff_getElem.mp h
  exact ⟨k, hk, by rw [List.getD_eq_getElem _ _ hk, he]⟩

/-- `getD` through `zipWith` below both lengths. -/
lemma getD_zipWith_lt {α β γ : Type} (f : α → β → γ) :
    ∀ (xs : List α) (ys : List β) (k : Nat) (d : γ) (da : α) (db : β),
    k < xs.length → k < ys.length →
    (List.zipWith f xs ys).getD k d = f (xs.getD k da) (ys.getD k db) := by
  intro xs
  induction xs with
  | nil =>
    intro ys k d da db h1 h2
    simp at h1
  | cons x xs2 ih =>
    intro ys k d da db h1 h2
    rcases ys with _ | ⟨y, ys2⟩
    · simp at h2
    cases k with
    | zero => rfl
    | succ j =>
      simp only [List.zipWith_cons_cons, List.getD_cons_succ]
      exact ih ys2 j d da db (by simpa using h1) (by simpa using h2)

/-- When availability is reported as 0 over a nonempty queue vector, some
queue is actually empty. -/
lemma exists_nil_of_available_eq_zero (s : PointCloudReaderRaw)
    (hne : s.queues ≠ []) (h : s.available_in_queue = 0) :
    ∃ q ∈ s.queues, q = [] := by
  by_contra hc
  push_neg at hc
  have h1 : 1 ≤ s.available_in_queue := by
    refine le_available s 1 hne (fun q hq => ?_) (by norm_num [USIZE_MAX])
    exact Nat.one_le_iff_ne_zero.mpr (fun h0 => hc q hq (List.length_eq_zero.mp h0))
  omega

/-- The drain loop's queue argument is a pure accumulator: values produced
from the bits are appended after it. -/
lemma drainFixed_append (w : Nat) (mk : Nat → RecordValue) :
    ∀ (fuel : Nat) (bits : List Bool) (q : List RecordValue),
    drainFixed w mk fuel bits q =
      ((drainFixed w mk fuel bits []).1, q ++ (drainFixed w mk fuel bits []).2) := by
  intro fuel
  induction fuel with
  | zero =>
    intro bits q
    simp [drainFixed]
  | succ f ih =>
    intro bits q
    simp only [drainFixed]
    by_cases hc : 0 < w ∧ w ≤ bits.length
    · rw [if_pos hc, if_pos hc]
      rw [ih (bits.drop w) (q ++ [mk (bitsToNat (bits.take w))])]
      rw [ih (bits.drop w) ([] ++ [mk (bitsToNat (bits.take w))])]
      simp [List.append_assoc]
    · rw [if_neg hc, if_neg hc]
      simp

/-- Every decoder treats its queue argument as a pure accumulator: running on
queue `q` appends exactly the values a run on the empty queue produces. -/
lemma decodeOne_accum (t : RecordDataType) (bf : ByteStreamReadBuffer)
    (q : List RecordValue) (b1 : ByteStreamReadBuffer) (v : List RecordValue)
    (h : decodeOne t bf [] = .ok (b1, v)) :
    decodeOne t bf q = .ok (b1, q ++ v) := by
  cases t with
  | single =>
    simp only [decodeOne, BitPack.unpack_singles] at h ⊢
    rcases hd : drainFixed 32 RecordValue.single bf.bits.length bf.bits []
      with ⟨bits0, vals0⟩
    rw [hd] at h
    dsimp only at h
    rw [Except.ok.injEq, Prod.mk.injEq] at h
    obtain ⟨h1, h2⟩ := h
    rw [drainFixed_append, hd]
    dsimp only
    rw [← h1, ← h2]
  | double =>
    simp only [decodeOne, BitPack.unpack_doubles] at h ⊢
    rcases hd : drainFixed 64 RecordValue.double bf.bits.length bf.bits []
      with ⟨bits0, vals0⟩
    rw [hd] at h
    dsimp only at h
    rw [Except.ok.injEq, Prod.mk.injEq] at h
    obtain ⟨h1, h2⟩ := h
    rw [drainFixed_append, hd]
    dsimp only
    rw [← h1, ← h2]
  | scaledInteger a b =>
    simp only [decodeOne, BitPack.unpack_scaled_ints] at h ⊢
    by_cases hab : b < a
    · rw [if_pos hab] at h
      cases h
    · rw [if_neg hab] at h ⊢
      by_cases hr : 2 ^ 63 < b - a + 1
      · rw [if_pos hr] at h
        cases h
      · rw [if_neg hr] at h ⊢
        by_cases hw : bitsFor a b = 0
        · rw [if_pos hw] at h ⊢
          rw [Except.ok.injEq, Prod.mk.injEq] at h
          obtain ⟨h1, h2⟩ := h
          rw [← h1, ← h2]
          simp
        · rw [if_neg hw] at h ⊢
          rcases hd : drainFixed (bitsFor a b)
              (fun raw => RecordValue.scaledInteger (a + raw)) bf.bits.length bf.bits []
            with ⟨bits0, vals0⟩
          rw [hd] at h
          dsimp only at h
          rw [Except.ok.injEq, Prod.mk.injEq] at h
          obtain ⟨h1, h2⟩ := h
          rw [drainFixed_append, hd]
          dsimp only
          rw [← h1, ← h2]
  | integer a b =>
    simp only [decodeOne, BitPack.unpack_ints] at h ⊢
    by_cases hab : b < a
    · rw [if_pos hab] at h
      cases h
    · rw [if_neg hab] at h ⊢
      by_cases hr : 2 ^ 63 < b - a + 1
      · rw [if_pos hr] at h
        cases h
      · rw [if_neg hr] at h ⊢
        by_cases hw : bitsFor a b = 0
        · rw [if_pos hw] at h ⊢
          rw [Except.ok.injEq, Prod.mk.injEq] at h
          obtain ⟨h1, h2⟩ := h
          rw [← h1, ← h2]
          simp
        · rw [if_neg hw] at h ⊢
          rcases hd : drainFixed (bitsFor a b)
              (fun raw => RecordValue.integer (a + raw)) bf.bits.length bf.bits []
            with ⟨bits0, vals0⟩
          rw [hd] at h
          dsimp only at h
          rw [Except.ok.injEq, Prod.mk.injEq] at h
          obtain ⟨h1, h2⟩ := h
          rw [drainFixed_append, hd]
          dsimp only
          rw [← h1, ← h2]

/-- Closed form of the payload append over arbitrary initial buffers: when
the payload runs lie consecutively at `pos`, each buffer is extended with its
run. -/
lemma appendPayloads_zipWith (data : List Nat) :
    ∀ (payloads : List (List Nat)) (pos : Nat) (rest : List Nat)
      (bufs : List ByteStreamReadBuffer),
    bufs.length = payloads.length →
    data.drop pos = payloads.flatten ++ rest →
    appendPayloads data pos bufs (payloads.map List.length)
      = List.zipWith (fun b p => b.append p) bufs payloads := by
  intro payloads
  induction payloads with
  | nil =>
    intro pos rest bufs hlen _
    have hb : bufs = [] := List.length_eq_zero.mp hlen
    subst hb
    rfl
  | cons p ps ih =>
    intro pos rest bufs hlen hdrop
    rcases bufs with _ | ⟨b, bs⟩
    · simp at hlen
    rw [List.flatten_cons, List.append_assoc] at hdrop
    simp only [List.map_cons, appendPayloads, List.zipWith_cons_cons]
    congr 1
    · rw [hdrop, List.take_left]
    · refine ih (pos + p.length) rest bs (by simpa using hlen) ?_
      have h2 := congrArg (List.drop p.length) hdrop
      rw [List.drop_drop] at h2
      rw [List.drop_left] at h2
      exact h2

/-- Parsing the packet header at an aligned offset whose suffix starts with a
constructed packet: the discriminator is Data, `bytestream_count` is `n`, and
the reader stands 6 bytes further. -/
lemma packetHeader_read_at (n : Nat) (pk : List (List Nat)) (D : List Nat) (p : Nat)
    (tail : List Nat) (hn : n < 65536)
    (htail : D.drop p = packetBytes n pk ++ tail) :
    PacketHeader.read { data := D, pos := p } =
      .ok (.data { packetLength := 0, bytestreamCount := n },
           { data := D, pos := p + 6 }) := by
  have hdata : D.drop p =
      1 :: 0 :: 0 :: 0 :: (n % 256) :: (n / 256) ::
        ((pk.map (fun q => enc2 q.length)).flatten ++ (pk.flatten ++ tail)) := by
    rw [htail]
    simp [packetBytes, enc2]
  have hlen : p + 6 ≤ D.length := by
    have h1 := congrArg List.length hdata
    rw [List.length_drop] at h1
    simp only [List.length_cons] at h1
    omega
  have hre1 : PagedReader.read_exact { data := D, pos := p } 1
      = some ([1], { data := D, pos := p + 1 }) := by
    unfold PagedReader.read_exact
    dsimp only
    rw [if_pos (by omega)]
    rw [show (D.drop p).take 1 = [1] from by rw [hdata]; rfl]
  have hdrop1 : D.drop (p + 1) = 0 :: 0 :: 0 :: (n % 256) :: (n / 256) ::
      ((pk.map (fun q => enc2 q.length)).flatten ++ (pk.flatten ++ tail)) := by
    have h2 := congrArg (List.drop 1) hdata
    rw [List.drop_drop] at h2
    simpa using h2
  have hre5 : PagedReader.read_exact { data := D, pos := p + 1 } 5
      = some ([0, 0, 0, n % 256, n / 256], { data := D, pos := p + 1 + 5 }) := by
    unfold PagedReader.read_exact
    dsimp only
    rw [if_pos (by omega)]
    rw [show (D.drop (p + 1)).take 5 = [0, 0, 0, n % 256, n / 256] from by rw [hdrop1]; rfl]
  unfold PacketHeader.read
  rw [hre1]
  dsimp only
  rw [if_neg (by decide), if_pos (by decide)]
  rw [hre5]
  dsimp only
  have hu : u16le [n % 256, n / 256] = n := u16le_enc2 n hn
  rw [hu]
  rfl



/-- Running `advance` on a state whose reader stands, 4-byte aligned, at the
start of a constructed packet: the header is parsed, the size table becomes
the payload lengths, each payload run is appended to its stream, each decoder
appends its values to its queue, and the reader ends at the start of the next
padded packet. -/
lemma advance_packetAt (pc : PointCloud) (pk : List (List Nat)) (D : List Nat) (p : Nat)
    (tail : List Nat) (bufs rests : List ByteStreamReadBuffer)
    (vals qs : List (List RecordValue)) (bsz : List Nat) (rc ac : Nat)
    (hcount : pc.prototype.length < 65536)
    (hpklen : pk.length = pc.prototype.length)
    (hbufs : bufs.length = pc.prototype.length)
    (hqs : qs.length = pc.prototype.length)
    (hbsz : bsz.length = pc.prototype.length)
    (hrests : rests.length = pc.prototype.length)
    (hvals : vals.length = pc.prototype.length)
    (hpkbound : ∀ q ∈ pk, q.length < 65536)
    (hp4 : p % 4 = 0)
    (htail : D.drop p = packetBytes pc.prototype.length pk ++ tail)
    (hdec : ∀ i, i < pc.prototype.length →
      decodeOne ((pc.prototype.getD i junkRecord).dataType)
        ((bufs.getD i ⟨[]⟩).append (pk.getD i [])) []
        = .ok (rests.getD i ⟨[]⟩, vals.getD i [])) :
    (mkState pc D p bufs rc qs bsz ac).advance =
      (mkState pc D (p + (paddedPacket pc.prototype.length pk).length) rests rc
        (List.zipWith (fun a b => a ++ b) qs vals) (pk.map List.length) (ac + 1),
       none) := by
  have hPB : (packetBytes pc.prototype.length pk).length
      = 6 + 2 * pc.prototype.length + pk.flatten.length := by
    rw [packetBytes_length, hpklen]
    omega
  have hDlen : p + (packetBytes pc.prototype.length pk).length ≤ D.length := by
    have h1 := congrArg List.length htail
    rw [List.length_drop, List.length_append] at h1
    omega
  have hdrop6 : D.drop (p + 6)
      = (pk.map (fun q => enc2 q.length)).flatten ++ (pk.flatten ++ tail) := by
    have h2 := congrArg (List.drop 6) htail
    rw [List.drop_drop] at h2
    rw [h2]
    rw [show packetBytes pc.prototype.length pk ++ tail
        = ([1, 0, 0, 0] ++ enc2 pc.prototype.length)
          ++ ((pk.map (fun q => enc2 q.length)).flatten ++ (pk.flatten ++ tail)) from by
      simp [packetBytes, List.append_assoc]]
    rw [show (6 : Nat) = ([1, 0, 0, 0] ++ enc2 pc.prototype.length).length from by
      simp [enc2]]
    rw [List.drop_left]
  have hsizes : (List.range pc.prototype.length).map
      (fun k => u16le ((D.drop (p + 6 + 2 * k)).take 2)) = pk.map List.length := by
    apply List.ext_getElem
    · simp [hpklen]
    · intro k hk1 hk2
      simp only [List.getElem_map, List.getElem_range]
      have hk : k < pk.length := by simpa using hk2
      have hdk : D.drop (p + 6 + 2 * k) = (D.drop (p + 6)).drop (2 * k) := by
        rw [List.drop_drop]
      rw [hdk, hdrop6]
      rw [flatten_blocks_slice (pk.map (fun q => enc2 q.length)) (pk.flatten ++ tail) k
        (by intro b hb; rcases List.mem_map.mp hb with ⟨q, _, rfl⟩; rfl) (by simpa using hk)]
      rw [getD_map_lt (fun q => enc2 q.length) pk k [] [] hk]
      have hself := u16le_enc2 (pk.getD k []).length (hpkbound _ (getD_mem pk k [] hk))
      rw [hself, List.getD_eq_getElem _ _ hk]
  have hsz : readSizesLoop { data := D, pos := p + 6 } bsz 0 pc.prototype.length
      = ({ data := D, pos := p + 6 + 2 * pc.prototype.length }, pk.map List.length, none) := by
    have h1 := readSizesLoop_complete bsz { data := D, pos := p + 6 } (by
      dsimp only
      rw [hbsz]
      omega)
    rw [hbsz] at h1
    rw [h1]
    dsimp only
    rw [hsizes]
  have hdropPay : D.drop (p + 6 + 2 * pc.prototype.length) = pk.flatten ++ tail := by
    have h2 : D.drop (p + 6 + 2 * pc.prototype.length)
        = (D.drop (p + 6)).drop (2 * pc.prototype.length) := by
      rw [List.drop_drop]
    rw [h2, hdrop6]
    rw [show 2 * pc.prototype.length
        = ((pk.map (fun q => enc2 q.length)).flatten).length from by
      rw [sizesBlocks_length, hpklen]]
    rw [List.drop_left]
  have hsum : (pk.map List.length).sum = pk.flatten.length := by
    rw [List.length_flatten]
  have hpl : readPayloadsLoop { data := D, pos := p + 6 + 2 * pc.prototype.length } bufs
      (pk.map List.length) 0
      = ({ data := D, pos := p + 6 + 2 * pc.prototype.length + pk.flatten.length },
         List.zipWith (fun b q => b.append q) bufs pk, none) := by
    have h1 := readPayloadsLoop_complete (pk.map List.length)
      { data := D, pos := p + 6 + 2 * pc.prototype.length } bufs
      (by rw [List.length_map, hbufs, hpklen])
      (by dsimp only; rw [hsum]; omega)
    rw [h1]
    dsimp only
    rw [hsum]
    rw [appendPayloads_zipWith D pk (p + 6 + 2 * pc.prototype.length) tail bufs
      (by rw [hbufs, hpklen]) hdropPay]
  have hdc : decodeLoop (List.zipWith (fun b q => b.append q) bufs pk) qs pc.prototype 0
      = (rests, List.zipWith (fun a b => a ++ b) qs vals, none) := by
    apply decodeLoop_of_decodeStreams
    · simp [List.length_zipWith, hbufs, hpklen]
    · exact hqs
    · apply decodeStreams_of_forall
      · simp [List.length_zipWith, hbufs, hpklen]
      · exact hqs
      · exact hrests
      · simp [List.length_zipWith, hqs, hvals]
      · intro i hi
        rw [getD_zipWith_lt (fun b q => b.append q) bufs pk i ⟨[]⟩ ⟨[]⟩ []
          (by rw [hbufs]; exact hi) (by rw [hpklen]; exact hi)]
        rw [getD_zipWith_lt (fun a b => a ++ b) qs vals i [] [] []
          (by rw [hqs]; exact hi) (by rw [hvals]; exact hi)]
        exact decodeOne_accum _ _ _ _ _ (hdec i hi)
  have hpos : align4 (p + 6 + 2 * pc.prototype.length + pk.flatten.length)
      = p + (paddedPacket pc.prototype.length pk).length := by
    rw [paddedPacket_length]
    rw [show p + 6 + 2 * pc.prototype.length + pk.flatten.length
        = p + (packetBytes pc.prototype.length pk).length from by rw [hPB]; ring]
    exact align4_add_left p _ hp4
  unfold PointCloudReaderRaw.advance
  dsimp only [mkState]
  rw [packetHeader_read_at pc.prototype.length pk D p tail hcount htail]
  dsimp only
  rw [if_neg (fun hcon => hcon hbufs.symm)]
  rw [hsz]
  dsimp only
  rw [hpl]
  dsimp only
  rw [hdc]
  dsimp only
  unfold PagedReader.align
  dsimp only
  rw [hpos]



/-- One successful step preserves the emission contract, with one more point
outstanding. -/
lemma run_step (s s1 : PointCloudReaderRaw) (pt : List RecordValue) (r : Nat)
    (hnext : s.next = (s1, some (.ok pt)))
    (hIH : RunSpec s1 r) (hpc : s1.pc = s.pc) :
    RunSpec s (r + 1) := by
  obtain ⟨ih1, ih2, ih3, ih4⟩ := hIH
  refine ⟨?_, ?_, ?_, ?_⟩
  · intro j hj
    cases j with
    | zero =>
      refine ⟨pt, ?_⟩
      unfold itemAt
      show (s.next).2 = _
      rw [hnext]
    | succ m =>
      rw [itemAt_succ_shift]
      rw [show (s.next).1 = s1 from by rw [hnext]]
      exact ih1 m (by omega)
  · rw [stateAfter_succ_shift, show (s.next).1 = s1 from by rw [hnext], ih2, hpc]
  · intro k hk
    cases k with
    | zero => exact absurd hk (by omega)
    | succ m =>
      rw [itemAt_succ_shift]
      rw [show (s.next).1 = s1 from by rw [hnext]]
      exact ih3 m (by omega)
  · intro k hk
    cases k with
    | zero => exact absurd hk (by omega)
    | succ m =>
      rw [stateAfter_succ_shift, show (s.next).1 = s1 from by rw [hnext]]
      rw [ih4 m (by omega)]
      rw [stateAfter_succ_shift, show (s.next).1 = s1 from by rw [hnext]]

/-- The iterator over a constructed section fulfils the emission contract:
from any reachable state with `rem = records - read` points outstanding and
per-stream supply covering them, there are exactly `rem` further successful
items and then permanent end-of-stream. The section may hold any number of
padded packets; the per-packet decode chain is given by `bufss` (the buffer
states between packets) and `valss` (the values each packet adds to each
queue). -/
lemma multiRun (pc : PointCloud) (hne : pc.prototype ≠ [])
    (hcount : pc.prototype.length < 65536) :
    ∀ (rem : Nat), ∀ (packets : List (List (List Nat)))
      (valss : List (List (List RecordValue)))
      (bufss : List (List ByteStreamReadBuffer))
      (D : List Nat) (p rc ac : Nat) (qs : List (List RecordValue)) (bsz : List Nat),
    rem = pc.records - rc →
    rc ≤ pc.records →
    qs.length = pc.prototype.length →
    bsz.length = pc.prototype.length →
    bufss.length = packets.length + 1 →
    (∀ bs ∈ bufss, bs.length = pc.prototype.length) →
    valss.length = packets.length →
    (∀ vs ∈ valss, vs.length = pc.prototype.length) →
    (∀ pk ∈ packets, pk.length = pc.prototype.length ∧ ∀ q ∈ pk, q.length < 65536) →
    (∀ k, k < packets.length → ∀ i, i < pc.prototype.length →
      decodeOne ((pc.prototype.getD i junkRecord).dataType)
        (((bufss.getD k []).getD i ⟨[]⟩).append ((packets.getD k []).getD i [])) []
        = .ok ((bufss.getD (k + 1) []).getD i ⟨[]⟩, (valss.getD k []).getD i [])) →
    (∀ k, k < packets.length → ∀ i, i < pc.prototype.length →
      1 ≤ ((valss.getD k []).getD i []).length) →
    (∀ i, i < pc.prototype.length →
      pc.records - rc ≤ (qs.getD i []).length
        + (valss.map (fun vs => (vs.getD i []).length)).sum) →
    D.drop p = sectionBytes pc.prototype.length packets →
    p % 4 = 0 →
    RunSpec (mkState pc D p (bufss.getD 0 []) rc qs bsz ac) rem := by
  intro rem
  induction rem with
  | zero =>
    intro packets valss bufss D p rc ac qs bsz hrem hrc hqs hbsz hblen hbs hvlen hvs hpks
      hchain hposi hsupply hdrop hp4
    have hdone : (mkState pc D p (bufss.getD 0 []) rc qs bsz ac).pc.records
        ≤ (mkState pc D p (bufss.getD 0 []) rc qs bsz ac).readCount := by
      show pc.records ≤ rc
      omega
    refine ⟨?_, ?_, ?_, ?_⟩
    · intro j hj
      exact absurd hj (by omega)
    · show (mkState pc D p (bufss.getD 0 []) rc qs bsz ac).readCount = _
      show rc = pc.records
      omega
    · intro k hk
      unfold itemAt
      rw [stateAfter_of_done _ hdone k]
      rw [next_done _ hdone]
    · intro k hk
      rw [stateAfter_of_done _ hdone k, stateAfter_of_done _ hdone 0]
  | succ r ih =>
    intro packets valss bufss D p rc ac qs bsz hrem hrc hqs hbsz hblen hbs hvlen hvs hpks
      hchain hposi hsupply hdrop hp4
    have hrcR : rc < pc.records := by omega
    have hn0 : 0 < pc.prototype.length := List.length_pos.mpr hne
    by_cases hav : (mkState pc D p (bufss.getD 0 []) rc qs bsz ac).available_in_queue < 1
    · -- refill needed: availability is 0, so some queue is empty and supply
      -- forces another packet to exist; advance over it, then pop
      have hqsne : qs ≠ [] := by
        intro h
        rw [h] at hqs
        simp at hqs
        omega
      have hav0 : (mkState pc D p (bufss.getD 0 []) rc qs bsz ac).available_in_queue = 0 := by
        omega
      obtain ⟨q0, hq0mem, hq0nil⟩ :=
        exists_nil_of_available_eq_zero (mkState pc D p (bufss.getD 0 []) rc qs bsz ac)
          hqsne hav0
      obtain ⟨i0, hi0lt, hi0⟩ := exists_getD_of_mem qs q0 [] hq0mem
      have hi0n : i0 < pc.prototype.length := by
        rw [hqs] at hi0lt
        exact hi0lt
      have hq0len : (qs.getD i0 []).length = 0 := by
        rw [hi0, hq0nil]
        rfl
      rcases packets with _ | ⟨pk, pkRest⟩
      · exfalso
        have hv0 : valss = [] := by
          simpa using hvlen
        have hs := hsupply i0 hi0n
        rw [hq0len, hv0] at hs
        simp at hs
        omega
      rcases valss with _ | ⟨vals0, valsRest⟩
      · exfalso
        simp at hvlen
      rcases bufss with _ | ⟨bufs0, bufssRest⟩
      · exfalso
        simp at hblen
      simp only [List.getD_cons_zero] at hav hav0 ⊢
      have hpk0 := hpks pk (List.mem_cons_self _ _)
      have hbufs0len : bufs0.length = pc.prototype.length :=
        hbs bufs0 (List.mem_cons_self _ _)
      have hbufssRlen : bufssRest.length = pkRest.length + 1 := by
        simp only [List.length_cons] at hblen
        omega
      have hrests0 : (bufssRest.getD 0 []).length = pc.prototype.length :=
        hbs _ (List.mem_cons_of_mem _ (getD_mem bufssRest 0 [] (by omega)))
      have hvals0len : vals0.length = pc.prototype.length :=
        hvs vals0 (List.mem_cons_self _ _)
      have hseccons : sectionBytes pc.prototype.length (pk :: pkRest)
          = paddedPacket pc.prototype.length pk ++ sectionBytes pc.prototype.length pkRest := by
        simp [sectionBytes]
      have hsec : D.drop p = packetBytes pc.prototype.length pk ++
          (List.replicate ((4 - (packetBytes pc.prototype.length pk).length % 4) % 4) 0
            ++ sectionBytes pc.prototype.length pkRest) := by
        rw [hdrop, hseccons]
        simp [paddedPacket, List.append_assoc]
      have hdec0 : ∀ i, i < pc.prototype.length →
          decodeOne ((pc.prototype.getD i junkRecord).dataType)
            ((bufs0.getD i ⟨[]⟩).append (pk.getD i [])) []
            = .ok ((bufssRest.getD 0 []).getD i ⟨[]⟩, vals0.getD i []) := by
        intro i hi
        have h0 := hchain 0 (by simp) i hi
        simpa using h0
      have hadv := advance_packetAt pc pk D p
        (List.replicate ((4 - (packetBytes pc.prototype.length pk).length % 4) % 4) 0
          ++ sectionBytes pc.prototype.length pkRest)
        bufs0 (bufssRest.getD 0 []) vals0 qs bsz rc ac
        hcount hpk0.1 hbufs0len hqs hbsz hrests0 hvals0len hpk0.2 hp4 hsec hdec0
      have hqvlen : (List.zipWith (fun a b => a ++ b) qs vals0).length
          = pc.prototype.length := by
        simp [List.length_zipWith, hqs, hvals0len]
      have hqvne : ∀ q ∈ List.zipWith (fun a b => a ++ b) qs vals0, q ≠ [] := by
        intro q hqm hqnil
        obtain ⟨j, hjlt, hjeq⟩ := exists_getD_of_mem _ q [] hqm
        rw [hqvlen] at hjlt
        rw [getD_zipWith_lt (fun a b => a ++ b) qs vals0 j [] [] []
          (by rw [hqs]; exact hjlt) (by rw [hvals0len]; exact hjlt)] at hjeq
        rw [hqnil] at hjeq
        have hsplit := List.append_eq_nil.mp hjeq
        have hp1 := hposi 0 (by simp) j hjlt
        rw [List.getD_cons_zero] at hp1
        rw [hsplit.2] at hp1
        simp at hp1
      have hWF1 : WF (mkState pc D (p + (paddedPacket pc.prototype.length pk).length)
          (bufssRest.getD 0 []) rc (List.zipWith (fun a b => a ++ b) qs vals0)
          (pk.map List.length) (ac + 1)) := by
        refine ⟨hrests0, hqvlen, ?_⟩
        show (pk.map List.length).length = pc.prototype.length
        simp [hpk0.1]
      have hav1 : ¬ (mkState pc D (p + (paddedPacket pc.prototype.length pk).length)
          (bufssRest.getD 0 []) rc (List.zipWith (fun a b => a ++ b) qs vals0)
          (pk.map List.length) (ac + 1)).available_in_queue < 1 := by
        have h1 : 1 ≤ (mkState pc D (p + (paddedPacket pc.prototype.length pk).length)
            (bufssRest.getD 0 []) rc (List.zipWith (fun a b => a ++ b) qs vals0)
            (pk.map List.length) (ac + 1)).available_in_queue := by
          refine le_available _ 1 ?_ ?_ (by norm_num [USIZE_MAX])
          · intro hz
            rw [show (mkState pc D (p + (paddedPacket pc.prototype.length pk).length)
                (bufssRest.getD 0 []) rc (List.zipWith (fun a b => a ++ b) qs vals0)
                (pk.map List.length) (ac + 1)).queues
                = List.zipWith (fun a b => a ++ b) qs vals0 from rfl] at hz
            rw [hz] at hqvlen
            simp at hqvlen
            omega
          · intro q hq
            exact Nat.one_le_iff_ne_zero.mpr
              (fun h0 => hqvne q hq (List.length_eq_zero.mp h0))
        omega
      have hnotdone : ¬ (mkState pc D p bufs0 rc qs bsz ac).pc.records
          ≤ (mkState pc D p bufs0 rc qs bsz ac).readCount := by
        show ¬ pc.records ≤ rc
        omega
      have hnext : (mkState pc D p bufs0 rc qs bsz ac).next
          = (mkState pc D (p + (paddedPacket pc.prototype.length pk).length)
              (bufssRest.getD 0 []) (rc + 1)
              ((List.zipWith (fun a b => a ++ b) qs vals0).map List.tail)
              (pk.map List.length) (ac + 1),
             some (.ok ((List.zipWith (fun a b => a ++ b) qs vals0).map
               (fun q => q.headD junkValue)))) := by
        unfold PointCloudReaderRaw.next
        rw [if_neg hnotdone]
        rw [if_pos hav]
        rw [hadv]
        dsimp only
        rw [if_neg hav1]
        rw [pop_queue_point_ok _ hWF1 hqvne]
        dsimp only [mkState]
      refine run_step _ _ _ r hnext ?_ rfl
      refine ih pkRest valsRest bufssRest D
        (p + (paddedPacket pc.prototype.length pk).length) (rc + 1) (ac + 1)
        ((List.zipWith (fun a b => a ++ b) qs vals0).map List.tail)
        (pk.map List.length)
        (by omega) (by omega) (by simp [hqvlen]) (by simp [hpk0.1]) hbufssRlen
        (fun bs hb => hbs bs (List.mem_cons_of_mem _ hb))
        (by simp only [List.length_cons] at hvlen; omega)
        (fun vs hv => hvs vs (List.mem_cons_of_mem _ hv))
        (fun pk2 hp2 => hpks pk2 (List.mem_cons_of_mem _ hp2))
        ?_ ?_ ?_ ?_ ?_
      · intro k hk i hi
        have h0 := hchain (k + 1) (by simp only [List.length_cons]; omega) i hi
        simpa using h0
      · intro k hk i hi
        have h0 := hposi (k + 1) (by simp only [List.length_cons]; omega) i hi
        simpa using h0
      · intro i hi
        have h1 := hsupply i hi
        rw [List.map_cons, List.sum_cons] at h1
        have hiq : i < qs.length := by rw [hqs]; exact hi
        have hiv : i < vals0.length := by rw [hvals0len]; exact hi
        rw [getD_map_lt List.tail _ i [] [] (by rw [hqvlen]; exact hi)]
        rw [getD_zipWith_lt (fun a b => a ++ b) qs vals0 i [] [] [] hiq hiv]
        rw [List.length_tail, List.length_append]
        have hp1 := hposi 0 (by simp) i hi
        rw [List.getD_cons_zero] at hp1
        omega
      · have h2 : D.drop (p + (paddedPacket pc.prototype.length pk).length)
            = (D.drop p).drop ((paddedPacket pc.prototype.length pk).length) := by
          rw [List.drop_drop]
        rw [h2, hdrop, hseccons, List.drop_left]
      · have ha1 := align4_mod (packetBytes pc.prototype.length pk).length
        have ha2 := paddedPacket_length pc.prototype.length pk
        omega
    · -- a value is available in every queue: pop without refill
      have hWF : WF (mkState pc D p (bufss.getD 0 []) rc qs bsz ac) :=
        ⟨hbs _ (getD_mem bufss 0 [] (by omega)), hqs, hbsz⟩
      have hqne : ∀ q ∈ qs, q ≠ [] := by
        intro q hq hqnil
        have h1 := available_le_of_mem (mkState pc D p (bufss.getD 0 []) rc qs bsz ac) q hq
        rw [hqnil] at h1
        simp only [List.length_nil] at h1
        omega
      have hnext := next_pop (mkState pc D p (bufss.getD 0 []) rc qs bsz ac) hWF hne hqne
        (show rc < pc.records from hrcR)
      refine run_step _ (mkState pc D p (bufss.getD 0 []) (rc + 1) (qs.map List.tail) bsz ac)
        _ r hnext ?_ rfl
      refine ih packets valss bufss D p (rc + 1) ac (qs.map List.tail) bsz
        (by omega) (by omega) (by simp [hqs]) hbsz hblen hbs hvlen hvs hpks hchain hposi
        ?_ hdrop hp4
      intro i hi
      have h1 := hsupply i hi
      have hiq : i < qs.length := by rw [hqs]; exact hi
      rw [getD_map_lt List.tail qs i [] [] hiq, List.length_tail]
      have hq1 : qs.getD i [] ≠ [] := hqne _ (getD_mem qs i [] hiq)
      have hl1 : 1 ≤ (qs.getD i []).length := by
        cases hq : qs.getD i [] with
        | nil => exact absurd hq hq1
        | cons a l => simp [hq]
      omega



/-- C1: over a well-formed section — any number of complete padded data
packets whose streams decode packet by packet (`bufss` holds the per-stream
buffer states between packets, `valss` the values each packet adds to each
queue, every packet contributing to every stream) and whose streams supply at
least `records` values per field in total — the iterator emits exactly
`records` successful points, and once the emitted counter equals `records`
every further call to `next` returns end-of-stream with the whole state (in
particular the reader position) unchanged. -/
theorem c1_emits_exactly_records (pc : PointCloud) (packets : List (List (List Nat)))
    (valss : List (List (List RecordValue))) (bufss : List (List ByteStreamReadBuffer))
    (hne : pc.prototype ≠ []) (hcount : pc.prototype.length < 65536)
    (hblen : bufss.length = packets.length + 1)
    (hbs : ∀ bs ∈ bufss, bs.length = pc.prototype.length)
    (hb0 : bufss.getD 0 [] = List.replicate pc.prototype.length ⟨[]⟩)
    (hvlen : valss.length = packets.length)
    (hvs : ∀ vs ∈ valss, vs.length = pc.prototype.length)
    (hpks : ∀ pk ∈ packets, pk.length = pc.prototype.length ∧ ∀ q ∈ pk, q.length < 65536)
    (hchain : ∀ k, k < packets.length → ∀ i, i < pc.prototype.length →
      decodeOne ((pc.prototype.getD i junkRecord).dataType)
        (((bufss.getD k []).getD i ⟨[]⟩).append ((packets.getD k []).getD i [])) []
        = .ok ((bufss.getD (k + 1) []).getD i ⟨[]⟩, (valss.getD k []).getD i []))
    (hposi : ∀ k, k < packets.length → ∀ i, i < pc.prototype.length →
      1 ≤ ((valss.getD k []).getD i []).length)
    (hsupply : ∀ i, i < pc.prototype.length →
      pc.records ≤ (valss.map (fun vs => (vs.getD i []).length)).sum) :
    (∀ j, j < pc.records →
      ∃ pt, itemAt (sectionReader pc packets) j = some (.ok pt)) ∧
    (stateAfter (sectionReader pc packets) pc.records).readCount = pc.records ∧
    (∀ k, pc.records ≤ k → itemAt (sectionReader pc packets) k = none) ∧
    (∀ k, pc.records ≤ k →
      stateAfter (sectionReader pc packets) k
        = stateAfter (sectionReader pc packets) pc.records) := by
  have hsupply2 : ∀ i, i < pc.prototype.length →
      pc.records - 0 ≤
        ((List.replicate pc.prototype.length ([] : List RecordValue)).getD i []).length
          + (valss.map (fun vs => (vs.getD i []).length)).sum := by
    intro i hi
    rw [getD_replicate_lt [] [] pc.prototype.length i hi]
    simpa using hsupply i hi
  have h := multiRun pc hne hcount pc.records packets valss bufss
    (sectionBytes pc.prototype.length packets) 0 0 0
    (List.replicate pc.prototype.length []) (List.replicate pc.prototype.length 0)
    (by omega) (by omega) (by simp) (by simp) hblen hbs hvlen hvs hpks hchain hposi
    hsupply2 (by simp) (by omega)
  rw [hb0] at h
  exact h

/-- C1 witness: the two-packet section of `packetsC1` for the three-record
descriptor `pcC1`; the second packet is ingested by a refill in the middle of
the iteration (the single-column queue starves after one pop). -/
theorem c1_emits_exactly_records_witness :
    (∀ j, j < pcC1.records →
      ∃ pt, itemAt (sectionReader pcC1 packetsC1) j = some (.ok pt)) ∧
    (stateAfter (sectionReader pcC1 packetsC1) pcC1.records).readCount = pcC1.records ∧
    (∀ k, pcC1.records ≤ k → itemAt (sectionReader pcC1 packetsC1) k = none) ∧
    (∀ k, pcC1.records ≤ k →
      stateAfter (sectionReader pcC1 packetsC1) k
        = stateAfter (sectionReader pcC1 packetsC1) pcC1.records) :=
  c1_emits_exactly_records pcC1 packetsC1 valssC1 bufssC1
    (by decide) (by decide) (by decide) (by decide) (by decide) (by decide) (by decide)
    (by decide) (by decide) (by decide) (by decide)


end E57
